import Mathlib

/-!
Verification of the translation-layer orchestration core.

Shallow embedding of the TypeScript sources of the repository
(src/utils/helpers.ts, src/services/languageDetector.ts,
src/services/cache.ts, src/services/translationService.ts,
src/types.ts schemas, src/services/circuitBreaker.ts) into Lean,
followed by theorems settling the frozen claims about the spec.
JavaScript strings are modelled as Lean strings, numbers as Nat / Int / Rat
as appropriate, asynchronous effectful calls as explicit state passing plus
an event trace, and thrown errors as Except results.
-/

namespace TL

/-! ## JS primitives -/

/-- JS word character, the class backslash-w of JS regexes: ASCII letters,
digits and underscore.  Used by the word-boundary assertion backslash-b. -/
def isWordChar (c : Char) : Bool :=
  (('a' ≤ c && c ≤ 'z') || ('A' ≤ c && c ≤ 'Z') || ('0' ≤ c && c ≤ '9') || c = '_')

/-- Word-character test lifted to an optional character; positions outside
the string count as non-word, as in JS regex semantics. -/
def isWordOpt : Option Char → Bool
  | none => false
  | some c => isWordChar c

/-- JS regex word boundary between two adjacent positions: exactly one of
the two surrounding characters is a word character. -/
def wordBoundary (a b : Option Char) : Bool :=
  isWordOpt a != isWordOpt b

/-- JS Math.round: floor of x + 1/2, written as a floor division of
integers so that concrete instances evaluate by kernel reduction. -/
def jsRound (x : ℚ) : ℤ := Int.fdiv (2 * x.num + (x.den : ℤ)) (2 * (x.den : ℤ))

/-- Rounding to 4 decimal places as Math.round of x * 10000, divided by 10000. -/
def round4 (x : ℚ) : ℚ := (jsRound (x * 10000) : ℚ) / 10000

/-! ## src/utils/helpers.ts -/

/-- Embedding of countChars: text.length. -/
def countChars (text : String) : ℕ := text.length

/-- JS whitespace test for the regex class backslash-s (ASCII part). -/
def isSpaceChar (c : Char) : Bool :=
  c = ' ' || c = '\t' || c = '\n' || c = '\r' || c = '\x0b' || c = '\x0c'

/-- One left-to-right pass of text.replace over runs of whitespace,
replacing each maximal run by a single space (list level). -/
def collapseWs : List Char → List Char
  | [] => []
  | c :: cs =>
    if isSpaceChar c then
      ' ' :: collapseWs (cs.dropWhile isSpaceChar)
    else
      c :: collapseWs cs
termination_by l => l.length
decreasing_by
  · simp only [List.length_cons]
    have := (List.dropWhile_suffix isSpaceChar (l := cs)).sublist.length_le
    omega
  · simp

/-- Embedding of normalizeWhitespace: collapse whitespace runs to single
spaces, then trim leading and trailing whitespace. -/
def normalizeWhitespace (text : String) : String :=
  String.mk ((collapseWs text.data).dropWhile (· = ' ')
    |>.reverse.dropWhile (· = ' ') |>.reverse)

/-- Character class used by isMostlySymbolsOrNumbers: ASCII letters plus the
Latin-1/Latin-extended, Cyrillic and CJK ranges kept by the regex filter. -/
def isAlphaLike (c : Char) : Bool :=
  (('a' ≤ c && c ≤ 'z') || ('A' ≤ c && c ≤ 'Z')
    || (0xC0 ≤ c.toNat && c.toNat ≤ 0x17F)
    || (0x400 ≤ c.toNat && c.toNat ≤ 0x4FF)
    || (0x4E00 ≤ c.toNat && c.toNat ≤ 0x9FFF))

/-- Embedding of isMostlySymbolsOrNumbers: true when fewer than 30 percent of
the characters are alphabetic, stated over naturals as 10 * alpha < 3 * len. -/
def isMostlySymbolsOrNumbers (text : String) : Bool :=
  10 * (text.data.filter isAlphaLike).length < 3 * text.length

/-- Opening glossary preservation marker inserted by applyGlossary. -/
def openTok : List Char := ['<', 'k', 'e', 'e', 'p', '>']

/-- Closing glossary preservation marker inserted by applyGlossary. -/
def closeTok : List Char := ['<', '/', 'k', 'e', 'e', 'p', '>']

/-- ASCII case folding of the JS i flag written over character codes:
uppercase ASCII letters map to their lowercase code, everything else to its
own code. -/
def foldCase (c : Char) : ℕ :=
  if 65 ≤ c.toNat ∧ c.toNat ≤ 90 then c.toNat + 32 else c.toNat

/-- Case-insensitive literal match of a term against a prefix of the input,
modelling a JS regex with the i flag on an escaped (hence literal) pattern.
Returns the matched original characters and the remaining input. -/
def matchCI : List Char → List Char → Option (List Char × List Char)
  | [], rest => some ([], rest)
  | _ :: _, [] => none
  | t :: ts, c :: cs =>
    if foldCase t = foldCase c then
      match matchCI ts cs with
      | some (m, r) => some (c :: m, r)
      | none => none
    else none

/-- Left-to-right global scan of text.replace with pattern
backslash-b (escaped term) backslash-b and flags g i, replacement
open marker, captured text, close marker.  JS finds matches in the original
string only, so scanning resumes after the matched text with the last matched
character as the left context.  The emptiness test on the matched text is a
termination guard; it never fails for the nonempty terms this is used with. -/
def scanTerm (t : List Char) (prev : Option Char) (u : List Char) : List Char :=
  match u with
  | [] => []
  | c :: cs =>
    match hm : matchCI t (c :: cs) with
    | some (m, rest) =>
      if !m.isEmpty && wordBoundary prev (some c) && wordBoundary m.getLast? rest.head? then
        openTok ++ m ++ closeTok ++ scanTerm t m.getLast? rest
      else c :: scanTerm t (some c) cs
    | none => c :: scanTerm t (some c) cs
termination_by u.length
decreasing_by
  · have key : ∀ (ts u : List Char) (p : List Char × List Char),
        matchCI ts u = some p → u.length = p.1.length + p.2.length := by
      intro ts
      induction ts with
      | nil =>
        intro u p h
        simp only [matchCI, Option.some.injEq] at h
        cases h
        simp
      | cons a as ih =>
        intro u p h
        cases u with
        | nil => simp [matchCI] at h
        | cons c cs =>
          simp only [matchCI] at h
          by_cases hc : foldCase a = foldCase c
          · simp only [hc, if_pos rfl] at h
            rcases hr : matchCI as cs with _ | q
            · rw [hr] at h; simp at h
            · rw [hr] at h
              simp only [Option.some.injEq] at h
              have := ih cs q hr
              cases h
              simp
              omega
          · rw [if_neg hc] at h; simp at h
    have hlen := key t (c :: cs) (m, rest) hm
    have hm0 : m ≠ [] := by
      rename_i hcond
      simp only [Bool.and_eq_true, Bool.not_eq_true'] at hcond
      exact fun he => by simp [he] at hcond
    have : 0 < m.length := List.length_pos.mpr hm0
    simp only [List.length_cons] at hlen ⊢
    omega
  · simp
  · simp

/-- Global scan for an empty term: the regex matches the empty string at
every word boundary and inserts an empty marker pair there, advancing one
character after each zero-width match, as JS does. -/
def scanEmpty (prev : Option Char) : List Char → List Char
  | [] => if isWordOpt prev then openTok ++ closeTok else []
  | c :: cs =>
    (if wordBoundary prev (some c) then openTok ++ closeTok else []) ++ c :: scanEmpty (some c) cs

/-- One term pass of applyGlossary (list level). -/
def applyGlossaryTerm (term : List Char) (text : List Char) : List Char :=
  if term.isEmpty then scanEmpty none text else scanTerm term none text

/-- Embedding of applyGlossary: fold the term passes in order over the text. -/
def applyGlossaryL (text : List Char) (terms : List (List Char)) : List Char :=
  terms.foldl (fun acc t => applyGlossaryTerm t acc) text

/-- String-level applyGlossary. -/
def applyGlossary (text : String) (preserveTerms : List String) : String :=
  String.mk (applyGlossaryL text.data (preserveTerms.map String.data))

/-- Embedding of removeGlossaryMarkers (list level): one left-to-right global
pass removing every occurrence of an opening or closing marker. -/
def removeGlossaryMarkersL (u : List Char) : List Char :=
  match u with
  | [] => []
  | c :: cs =>
    if openTok.isPrefixOf (c :: cs) then removeGlossaryMarkersL (cs.drop 5)
    else if closeTok.isPrefixOf (c :: cs) then removeGlossaryMarkersL (cs.drop 6)
    else c :: removeGlossaryMarkersL cs
termination_by u.length
decreasing_by
  · have := List.length_drop 5 cs
    simp only [List.length_cons]
    omega
  · have := List.length_drop 6 cs
    simp only [List.length_cons]
    omega
  · simp

/-- String-level removeGlossaryMarkers. -/
def removeGlossaryMarkers (text : String) : String :=
  String.mk (removeGlossaryMarkersL text.data)

/-- Embedding of the retry helper: up to maxRetries attempts; after a failed
attempt other than the last one, sleep baseDelay * 2 ^ attempt (delays are
returned as a list since real time is outside the model); after the loop the
last error is rethrown (none when no attempt ever ran). -/
def retryAux {E A : Type} (outcomes : ℕ → Except E A) (maxRetries baseDelay : ℕ)
    (attempt : ℕ) (lastError : Option E) : Except (Option E) A × List ℕ :=
  if attempt < maxRetries then
    match outcomes attempt with
    | .ok a => (.ok a, [])
    | .error e =>
      if attempt < maxRetries - 1 then
        let d := baseDelay * 2 ^ attempt
        let r := retryAux outcomes maxRetries baseDelay (attempt + 1) (some e)
        (r.1, d :: r.2)
      else
        (.error (some e), [])
  else
    (.error lastError, [])
termination_by maxRetries - attempt
decreasing_by
  omega

/-- Embedding of retry with the source defaults maxRetries = 3,
baseDelay = 1000 supplied at each call site. -/
def retry {E A : Type} (outcomes : ℕ → Except E A) (maxRetries baseDelay : ℕ) :
    Except (Option E) A × List ℕ :=
  retryAux outcomes maxRetries baseDelay 0 none

/-! ## src/services/usageTracker.ts -/

/-- Result record of estimateCost. -/
structure CostEstimate where
  chars : ℕ
  estimated_usd : ℚ
deriving Repr, DecidableEq

/-- Per-provider rate of the costPer1M lookup, with the 20 dollar fallback
for unknown providers. -/
def costPer1M (provider : String) : ℚ :=
  if provider = "deepl" then 20 else if provider = "google" then 20 else 20

/-- Embedding of estimateCost: chars / 1e6 * rate, rounded to 4 decimals. -/
def estimateCost (chars : ℕ) (provider : String) : CostEstimate :=
  ⟨chars, round4 ((chars : ℚ) / 1000000 * costPer1M provider)⟩

/-! ## src/services/languageDetector.ts -/

/-- Result record of detectLanguage. -/
structure LanguageDetectionResult where
  lang : String
  confidence : ℚ
  isReliable : Bool
deriving Repr, DecidableEq

/-- Language-detection configuration (config.languageDetection), with the
source defaults minChars = 10 and confidenceThreshold = 0.7. -/
structure LangDetectConfig where
  minChars : ℕ
  confidenceThreshold : ℚ
deriving Repr

/-- Source default language-detection configuration. -/
def defaultLangDetectConfig : LangDetectConfig := ⟨10, 7/10⟩

/-- JS String.trim at the list level. -/
def trimL (l : List Char) : List Char :=
  ((l.dropWhile isSpaceChar).reverse.dropWhile isSpaceChar).reverse

/-- Replace the first occurrence of a pattern by the empty string, as
label.replace with a plain string pattern does in JS. -/
def replaceFirstDrop (pat : List Char) (u : List Char) : List Char :=
  match u with
  | [] => []
  | c :: cs =>
    if pat.isPrefixOf (c :: cs) && !pat.isEmpty then cs.drop (pat.length - 1)
    else c :: replaceFirstDrop pat cs
termination_by u.length
decreasing_by
  all_goals simp only [List.length_cons, List.length_drop]
  all_goals omega

/-- Strip the fastText label marker from a predicted label. -/
def stripLabel (label : String) : String :=
  String.mk (replaceFirstDrop "__label__".data label.data)

/-- FastText model oracle: predict with k = 1, returning label and value
pairs; none models a thrown prediction error (caught by the source and
collapsed to und). -/
def FastTextModel : Type := String → Option (List (String × ℚ))

/-- Undetermined terminal detection outcome. -/
def undResult : LanguageDetectionResult := ⟨"und", 0, false⟩

/-- Embedding of detectLanguage: empty or whitespace-only input, input below
the minimum normalized length, mostly-symbolic input, a missing model,
a thrown or empty prediction all yield und with confidence 0; otherwise the
top prediction is returned with isReliable set by the confidence threshold. -/
def detectLanguage (cfg : LangDetectConfig) (model : Option FastTextModel)
    (text : String) : LanguageDetectionResult :=
  if text = "" || (String.mk (trimL text.data)).length = 0 then undResult
  else
    let normalizedText := normalizeWhitespace text
    if normalizedText.length < cfg.minChars then undResult
    else if isMostlySymbolsOrNumbers normalizedText then undResult
    else
      match model with
      | none => undResult
      | some predict =>
        let truncatedText := normalizedText.take 1000
        match predict truncatedText with
        | none => undResult
        | some [] => undResult
        | some ((label, value) :: _) =>
          ⟨stripLabel label, value, decide (cfg.confidenceThreshold ≤ value)⟩

/-! ## src/services/cache.ts -/

/-- Input string of the sha256 digest in generateCacheKey: the colon-joined
four components.  The namespace is not part of the hashed input. -/
def hashInput (text sourceLang targetLang provider : String) : String :=
  text ++ ":" ++ sourceLang ++ ":" ++ targetLang ++ ":" ++ provider

/-- Truncation of a digest string to its first 32 characters, written over
the character list so that concrete instances evaluate by kernel reduction. -/
def truncate32 (s : String) : String := String.mk (s.data.take 32)

/-- Embedding of generateCacheKey, parametric in the hex-digest function h
standing for sha256-hex: namespace prefix, colon, digest truncated to 32
characters. -/
def generateCacheKey (h : String → String) (text sourceLang targetLang provider ns : String) : String :=
  ns ++ ":" ++ truncate32 (h (hashInput text sourceLang targetLang provider))

/-- Modelled from the spec: key derivation as a deterministic hash over the
five-tuple of text, sourceLang, targetLang, providerName and namespace,
truncated to a fixed-length hex digest and prefixed with the namespace.
This is the spec reading of the claim, kept for comparison with the
source-derived generateCacheKey above. -/
def generateCacheKeySpec (h : String → String) (text sourceLang targetLang provider ns : String) : String :=
  ns ++ ":" ++ truncate32 (h (text ++ ":" ++ sourceLang ++ ":" ++ targetLang ++ ":" ++ provider ++ ":" ++ ns))

/-- Key of a language-detection cache entry, as computed identically in
getCachedLanguageDetection and setCachedLanguageDetection: fixed langdetect
namespace and a digest of the text alone. -/
def langDetectCacheKey (h : String → String) (text : String) : String :=
  "langdetect:" ++ truncate32 (h text)

/-- Cache configuration (config.cache) with source defaults enabled = true,
ttlSeconds = 3600, maxSize = 10000. -/
structure CacheConfig where
  enabled : Bool
  ttlSeconds : ℕ
  maxSize : ℤ
deriving Repr

/-- Remote (Redis) tier model: availability flag, a failure flag standing
for thrown client calls (caught by cache.ts), and the stored entries as
key, value and expiry time in milliseconds. -/
structure RedisState where
  available : Bool
  failing : Bool
  store : List (String × String × ℕ)
deriving Repr

/-- Local in-memory cache entry. -/
structure MemEntry where
  value : String
  expiry : ℕ
deriving Repr, DecidableEq

/-- Two-tier cache state: remote tier, local insertion-ordered map and the
memoryCacheSize counter. -/
structure CacheState where
  redis : RedisState
  memory : List (String × MemEntry)
  memoryCacheSize : ℤ
deriving Repr

/-- First-match association lookup (JS Map.get). -/
def assocGet {α : Type} (l : List (String × α)) (k : String) : Option α :=
  match l with
  | [] => none
  | (k', v) :: rest => if k' = k then some v else assocGet rest k

/-- JS Map.set: update in place when the key exists, else append, keeping
insertion order. -/
def assocSet {α : Type} (l : List (String × α)) (k : String) (v : α) : List (String × α) :=
  match l with
  | [] => [(k, v)]
  | (k', v') :: rest => if k' = k then (k, v) :: rest else (k', v') :: assocSet rest k v

/-- Lookup in the Redis store model: a key is live while now is before its
expiry. -/
def redisLookup (store : List (String × String × ℕ)) (now : ℕ) (k : String) : Option String :=
  match store with
  | [] => none
  | (k', v, e) :: rest => if k' = k then (if now < e then some v else none) else redisLookup rest now k

/-- Redis setex model: store the value with expiry now plus ttl seconds. -/
def redisSetex (store : List (String × String × ℕ)) (now : ℕ) (k v : String) (ttl : ℕ) :
    List (String × String × ℕ) :=
  match store with
  | [] => [(k, v, now + ttl * 1000)]
  | (k', v', e') :: rest =>
    if k' = k then (k, v, now + ttl * 1000) :: rest else (k', v', e') :: redisSetex rest now k v ttl

/-- Embedding of getCachedTranslation: disabled cache misses; otherwise try
Redis when available (a thrown get falls through), treating an empty cached
string as falsy; then the memory tier with lazy expiry. -/
def getCachedTranslation (h : String → String) (cfg : CacheConfig) (st : CacheState) (now : ℕ)
    (text sourceLang targetLang provider : String) : Option String :=
  if cfg.enabled = false then none
  else
    let key := generateCacheKey h text sourceLang targetLang provider "translation"
    let redisHit : Option String :=
      if st.redis.available && !st.redis.failing then
        match redisLookup st.redis.store now key with
        | some v => if v = "" then none else some v
        | none => none
      else none
    match redisHit with
    | some v => some v
    | none =>
      match assocGet st.memory key with
      | some e => if now < e.expiry then some e.value else none
      | none => none

/-- Options record of setCachedTranslation. -/
structure CacheOptions where
  ttlSeconds : Option ℕ
  ns : Option String

/-- Embedding of cleanupMemoryCache: drop expired entries, decrementing the
size counter per deletion. -/
def cleanupMemoryCache (memory : List (String × MemEntry)) (size : ℤ) (now : ℕ) :
    List (String × MemEntry) × ℤ :=
  match memory with
  | [] => ([], size)
  | (k, e) :: rest =>
    if e.expiry < now then cleanupMemoryCache rest (size - 1) now
    else
      let r := cleanupMemoryCache rest size now
      ((k, e) :: r.1, r.2)

/-- Embedding of setCachedTranslation: no-op when disabled; write Redis with
setex when available (a thrown set falls through to memory); otherwise write
the memory tier, cleaning up and evicting the hundred oldest entries first
when the size counter is at capacity. -/
def setCachedTranslation (h : String → String) (cfg : CacheConfig) (st : CacheState) (now : ℕ)
    (text sourceLang targetLang provider translatedText : String) (options : CacheOptions) :
    CacheState :=
  if cfg.enabled = false then st
  else
    let key := generateCacheKey h text sourceLang targetLang provider (options.ns.getD "translation")
    let ttl := options.ttlSeconds.getD cfg.ttlSeconds
    if st.redis.available && !st.redis.failing then
      { st with redis := { st.redis with store := redisSetex st.redis.store now key translatedText ttl } }
    else
      let afterCap : List (String × MemEntry) × ℤ :=
        if cfg.maxSize ≤ st.memoryCacheSize then
          let cleaned := cleanupMemoryCache st.memory st.memoryCacheSize now
          if cfg.maxSize ≤ cleaned.2 then
            let deleted := min 100 cleaned.1.length
            (cleaned.1.drop 100, cleaned.2 - deleted)
          else cleaned
        else (st.memory, st.memoryCacheSize)
      { st with
        memory := assocSet afterCap.1 key ⟨translatedText, now + ttl * 1000⟩,
        memoryCacheSize := afterCap.2 + 1 }

/-! ## src/providers/factory.ts and the translator interface -/

/-- Translation result produced by a provider adapter. -/
structure TranslationResult where
  text : String
  detectedSourceLang : Option String
deriving Repr, DecidableEq

/-- Provider adapter model: instance name and translate behaviour; a
translate error carries the thrown TranslationError message. -/
structure TranslatorM where
  name : String
  translate : String → String → String → Except String TranslationResult

/-- The two provider singletons of the factory. -/
structure Providers where
  deepl : TranslatorM
  google : TranslatorM

/-- Embedding of getTranslator: dispatch on the provider name, throwing a
TranslationError for unknown names. -/
def getTranslator (ps : Providers) (provider : String) : Except String TranslatorM :=
  if provider = "deepl" then .ok ps.deepl
  else if provider = "google" then .ok ps.google
  else .error ("Unknown translation provider: " ++ provider)

/-- Embedding of getTranslatorForTenant: tenant preference with fallback to
the configured default when the preference is missing (falsy). -/
def getTranslatorForTenant (ps : Providers) (tenantProvider defaultProvider : String) :
    Except String TranslatorM :=
  getTranslator ps (if tenantProvider = "" then defaultProvider else tenantProvider)

/-! ## src/services/translationService.ts -/

/-- Single normalization request after schema validation. -/
structure NormalizeRequest where
  tenant_id : String
  record_id : String
  type : String
  text : String
  source_lang : Option String
  target_lang : Option String
deriving Repr, DecidableEq

/-- Response metadata record. -/
structure NormalizeMeta where
  detected_confidence : Option ℚ
  translator : String
  detector : String
  chars : ℕ
  estimated_cost_usd : ℚ
  request_id : String
deriving Repr, DecidableEq

/-- Single normalization response. -/
structure NormalizeResponse where
  tenant_id : String
  record_id : String
  type : String
  source_lang : String
  target_lang : String
  text_original : String
  text_normalized : String
  meta : NormalizeMeta
deriving Repr, DecidableEq

/-- Usage record handed to the usage sink. -/
structure UsageRecord where
  tenant_id : String
  request_id : String
  record_id : String
  type : String
  source_lang : String
  target_lang : String
  chars_count : ℕ
  provider : String
deriving Repr, DecidableEq

/-- Tenant context consumed by the pipeline; glossary_preserve models
tenant.glossary.preserve with the missing case collapsed to the empty list
by the optional-chain-or-empty expression at the use site. -/
structure TenantContext where
  id : String
  translator_provider : String
  glossary_preserve : List String
deriving Repr

/-- Observable effect events of one pipeline run, in order: the cache and
breaker constructors exist so that statements about cache lookups and
breaker-guarded calls are expressible; the pipeline source emits an event
whenever it performs the corresponding call. -/
inductive Event
  | detect (text : String)
  | cacheGet (text sourceLang targetLang provider : String)
  | cacheSet (text sourceLang targetLang provider value : String)
  | breakerCall (provider : String)
  | provTranslate (provider text sourceLang targetLang : String)
  | usage (u : UsageRecord)
deriving Repr, DecidableEq

/-- Event classifier: cache lookup events. -/
def Event.isCacheGet : Event → Bool
  | .cacheGet _ _ _ _ => true
  | _ => false

/-- Event classifier: cache store events. -/
def Event.isCacheSet : Event → Bool
  | .cacheSet _ _ _ _ _ => true
  | _ => false

/-- Event classifier: circuit-breaker-guarded call events. -/
def Event.isBreakerCall : Event → Bool
  | .breakerCall _ => true
  | _ => false

/-- Event classifier: provider adapter translate calls. -/
def Event.isProvTranslate : Event → Bool
  | .provTranslate _ _ _ _ => true
  | _ => false

/-- Event classifier: usage-sink records. -/
def Event.isUsage : Event → Bool
  | .usage _ => true
  | _ => false

/-- Pipeline configuration slice used by normalizeText. -/
structure PipelineConfig where
  langDetect : LangDetectConfig
  defaultTargetLang : String
  defaultProvider : String

/-- Resolved source language of a request: the caller-supplied code when
present and truthy, else the detection outcome, together with the optional
detected confidence and the detection events. -/
def resolveSource (cfg : PipelineConfig) (model : Option FastTextModel)
    (request : NormalizeRequest) : String × Option ℚ × List Event :=
  match request.source_lang with
  | some s =>
    if s = "" then
      let det := detectLanguage cfg.langDetect model request.text
      (det.lang, some det.confidence, [Event.detect request.text])
    else (s, none, [])
  | none =>
    let det := detectLanguage cfg.langDetect model request.text
    (det.lang, some det.confidence, [Event.detect request.text])

/-- Resolved target language: request target when truthy, else the
configured default. -/
def resolveTarget (cfg : PipelineConfig) (request : NormalizeRequest) : String :=
  match request.target_lang with
  | some t => if t = "" then cfg.defaultTargetLang else t
  | none => cfg.defaultTargetLang

/-- Text sent to the provider: the request text with glossary preservation
applied when the tenant has preserve terms. -/
def pipelineText (request : NormalizeRequest) (tenant : TenantContext) : String :=
  if tenant.glossary_preserve.length > 0 then
    applyGlossary request.text tenant.glossary_preserve
  else request.text

/-- Embedding of normalizeText: resolve the source language, skip when it
equals the target or is und (echo the text, provider none, usage tracked),
else apply the glossary, translate through the selected provider adapter,
strip markers, track usage and assemble the response.  The request id is a
parameter since its generation is a random effect outside the model.  The
returned list is the trace of effect events in program order. -/
def normalizeText (cfg : PipelineConfig) (model : Option FastTextModel) (ps : Providers)
    (request : NormalizeRequest) (tenant : TenantContext) (reqId : String) :
    Except String NormalizeResponse × List Event :=
  let d0 := resolveSource cfg model request
  let sourceLang := d0.1
  let detectedConfidence := d0.2.1
  let ev0 := d0.2.2
  let targetLang := resolveTarget cfg request
  let textChars := countChars request.text
  if sourceLang = targetLang ∨ sourceLang = "und" then
    let est := estimateCost textChars "none"
    let meta : NormalizeMeta :=
      ⟨detectedConfidence, "none", "fastText", textChars, est.estimated_usd, reqId⟩
    let u : UsageRecord :=
      ⟨tenant.id, reqId, request.record_id, request.type, sourceLang, targetLang, textChars, "none"⟩
    (.ok ⟨request.tenant_id, request.record_id, request.type, sourceLang, targetLang,
        request.text, request.text, meta⟩,
      ev0 ++ [Event.usage u])
  else
    let preserveTerms := tenant.glossary_preserve
    let textToTranslate := pipelineText request tenant
    match getTranslatorForTenant ps tenant.translator_provider cfg.defaultProvider with
    | .error e => (.error e, ev0)
    | .ok translator =>
      match translator.translate textToTranslate sourceLang targetLang with
      | .error e =>
        (.error e, ev0 ++ [Event.provTranslate translator.name textToTranslate sourceLang targetLang])
      | .ok translationResult =>
        let normalizedText :=
          if preserveTerms.length > 0 then removeGlossaryMarkers translationResult.text
          else translationResult.text
        let meta : NormalizeMeta :=
          ⟨detectedConfidence, translator.name, "fastText", textChars,
            (estimateCost textChars translator.name).estimated_usd, reqId⟩
        let u : UsageRecord :=
          ⟨tenant.id, reqId, request.record_id, request.type, sourceLang, targetLang,
            textChars, translator.name⟩
        let respSourceLang :=
          match translationResult.detectedSourceLang with
          | some d => if d = "" then sourceLang else d
          | none => sourceLang
        (.ok ⟨request.tenant_id, request.record_id, request.type, respSourceLang, targetLang,
            request.text, normalizedText, meta⟩,
          ev0 ++ [Event.provTranslate translator.name textToTranslate sourceLang targetLang,
            Event.usage u])

/-! ## Request schemas (src/types.ts, zod) -/

/-- The enumerated record types. -/
def recordTypes : List String :=
  ["email_subject", "email_body", "meeting_title", "meeting_description",
    "call_note", "crm_note", "deal_update", "custom"]

/-- LanguageCode schema: a string of length between 2 and 5. -/
def langCodeOk (s : String) : Bool := 2 ≤ s.length && s.length ≤ 5

/-- Raw batch item before validation; absent optional fields are none. -/
structure RawBatchItem where
  record_id : String
  type : Option String
  text : String
  source_lang : Option String
deriving Repr

/-- Raw batch request before validation. -/
structure RawBatchRequest where
  tenant_id : String
  target_lang : Option String
  items : List RawBatchItem
deriving Repr

/-- Validated batch item with the type default applied. -/
structure BatchItem where
  record_id : String
  type : String
  text : String
  source_lang : Option String
deriving Repr, DecidableEq

/-- Validated batch request with the target default applied. -/
structure BatchNormalizeRequest where
  tenant_id : String
  target_lang : String
  items : List BatchItem
deriving Repr, DecidableEq

/-- Validation of one batch item against the item object schema: nonempty
record id, type in the enumeration defaulting to custom, nonempty text,
optional source language code of valid length. -/
def parseBatchItem (it : RawBatchItem) : Except String BatchItem :=
  if it.record_id.length < 1 then .error "record_id: too small"
  else
    match it.type with
    | some ty =>
      if recordTypes.contains ty then
        if it.text.length < 1 then .error "text: too small"
        else
          match it.source_lang with
          | some s => if langCodeOk s then .ok ⟨it.record_id, ty, it.text, some s⟩
              else .error "source_lang: invalid length"
          | none => .ok ⟨it.record_id, ty, it.text, none⟩
      else .error "type: invalid enum value"
    | none =>
      if it.text.length < 1 then .error "text: too small"
      else
        match it.source_lang with
        | some s => if langCodeOk s then .ok ⟨it.record_id, "custom", it.text, some s⟩
            else .error "source_lang: invalid length"
        | none => .ok ⟨it.record_id, "custom", it.text, none⟩

/-- List traversal of the item validator. -/
def parseBatchItems : List RawBatchItem → Except String (List BatchItem)
  | [] => .ok []
  | it :: rest =>
    match parseBatchItem it with
    | .error e => .error e
    | .ok b =>
      match parseBatchItems rest with
      | .error e => .error e
      | .ok bs => .ok (b :: bs)

/-- Validation of the optional target language with its en default. -/
def parseTargetLang : Option String → Except String String
  | some t => if langCodeOk t then .ok t else .error "target_lang: invalid length"
  | none => .ok "en"

/-- Embedding of BatchNormalizeRequestSchema.safeParse: nonempty tenant id,
target language code defaulting to en, items validated elementwise with the
array length constrained to the inclusive range 1 to 100. -/
def parseBatchRequest (r : RawBatchRequest) : Except String BatchNormalizeRequest :=
  if r.tenant_id.length < 1 then .error "tenant_id: too small"
  else
    match parseTargetLang r.target_lang with
    | .error e => .error e
    | .ok t =>
      match parseBatchItems r.items with
      | .error e => .error e
      | .ok items =>
        if items.length < 1 then .error "items: too small"
        else if 100 < items.length then .error "items: too big"
        else .ok ⟨r.tenant_id, t, items⟩

/-- Route-level acceptance of a batch normalize request: the handler wraps
any safeParse failure in a ValidationError, so a request is accepted exactly
when the schema parse succeeds. -/
def batchRequestAccepted (r : RawBatchRequest) : Bool :=
  match parseBatchRequest r with
  | .ok _ => true
  | .error _ => false

/-! ## src/providers/deepl.ts -/

/-- Embedding of DeepLTranslator.translate: throw when the client is not
configured, else run the network call inside the retry helper with the
default three attempts and 1000 ms base delay, wrapping provider errors as
TranslationError messages.  The network oracle yields the per-attempt
outcome with the response already mapped to a TranslationResult; the error
none case (no attempt ran) cannot occur with three attempts. -/
def deeplTranslate (hasClient : Bool) (network : ℕ → Except String TranslationResult) :
    Except String TranslationResult × List ℕ :=
  if hasClient = false then (.error "DeepL API key not configured", [])
  else
    let r := retry network 3 1000
    (match r.1 with
      | .ok t => .ok t
      | .error (some e) => .error ("DeepL error: " ++ e)
      | .error none => .error "undefined",
      r.2)

/-! ## Circuit breaker (src/services/circuitBreaker.ts over the opossum
state machine) -/

/-- Breaker states. -/
inductive BreakerKind
  | closed
  | opened
  | halfOpen
deriving Repr, DecidableEq

/-- Breaker configuration (config.circuitBreaker) with source defaults
enabled, error threshold 50 percent, reset timeout 30000 ms, volume
threshold 5. -/
structure BreakerConfig where
  enabled : Bool
  errorThresholdPercentage : ℕ
  resetTimeout : ℕ
  volumeThreshold : ℕ
deriving Repr

/-- Source default breaker configuration. -/
def defaultBreakerConfig : BreakerConfig := ⟨true, 50, 30000, 5⟩

/-- Breaker state: kind, rolling-window call and failure counts, and the
time the breaker last opened. -/
structure BreakerState where
  kind : BreakerKind
  windowCalls : ℕ
  windowFailures : ℕ
  openedAt : ℕ
deriving Repr, DecidableEq

/-- Outcome of one underlying wrapped call; a timeout counts as failure. -/
inductive CallOutcome
  | success
  | failure
deriving Repr, DecidableEq

/-- Result of firing the breaker: rejected means the wrapped translate
function was not invoked and the fallback TranslationError was synthesized;
completed carries the underlying outcome of an actual invocation. -/
inductive FireResult
  | rejected (msg : String)
  | completed (o : CallOutcome)
deriving Repr, DecidableEq

/-- Fallback TranslationError message installed by createCircuitBreaker. -/
def unavailableMsg (name : String) : String :=
  "Translation provider " ++ name ++ " is currently unavailable. Please try again later."

/-- Contribution of an outcome to the failure counter. -/
def CallOutcome.failCount : CallOutcome → ℕ
  | .success => 0
  | .failure => 1

/-- Probe call in the half-open state: success closes the breaker and
resets the window, failure reopens it at the current time. -/
def breakerProbe (b : BreakerState) (now : ℕ) (underlying : CallOutcome) :
    FireResult × BreakerState :=
  match underlying with
  | .success => (.completed .success, ⟨.closed, 0, 0, 0⟩)
  | .failure => (.completed .failure, ⟨.opened, b.windowCalls, b.windowFailures, now⟩)

/-- Modelled from the spec: the opossum CircuitBreaker call semantics (the
state machine lives in the opossum dependency, not under src); the option
wiring, fallback error and disabled pass-through follow
createCircuitBreaker.  Closed calls pass through and update the rolling
window, opening the breaker once the window holds at least volumeThreshold
calls with a failure percentage at or above errorThresholdPercentage; open
calls short-circuit with the fallback TranslationError until resetTimeout
has elapsed, after which one probe is allowed; the probe closes or reopens
the breaker by its outcome. -/
def breakerFire (name : String) (cfg : BreakerConfig) (b : BreakerState) (now : ℕ)
    (underlying : CallOutcome) : FireResult × BreakerState :=
  if cfg.enabled = false then (.completed underlying, b)
  else
    match b.kind with
    | .closed =>
      let calls := b.windowCalls + 1
      let fails := b.windowFailures + underlying.failCount
      if cfg.volumeThreshold ≤ calls ∧ cfg.errorThresholdPercentage * calls ≤ 100 * fails then
        (.completed underlying, ⟨.opened, calls, fails, now⟩)
      else
        (.completed underlying, ⟨.closed, calls, fails, b.openedAt⟩)
    | .opened =>
      if now < b.openedAt + cfg.resetTimeout then
        (.rejected (unavailableMsg name), b)
      else
        breakerProbe b now underlying
    | .halfOpen => breakerProbe b now underlying

/-- Observed breaker state at a time: an open breaker whose reset timeout
has elapsed is reported half-open. -/
def breakerKindAt (cfg : BreakerConfig) (b : BreakerState) (now : ℕ) : BreakerKind :=
  match b.kind with
  | .opened => if b.openedAt + cfg.resetTimeout ≤ now then .halfOpen else .opened
  | k => k

/-! ## Concrete fixtures used by witnesses and counterexamples -/

/-- Identity digest function used to instantiate the abstract hash. -/
def hid : String → String := fun s => s

/-- Concrete deepl adapter whose translate succeeds. -/
def cDeepl : TranslatorM := ⟨"deepl", fun _ _ _ => .ok ⟨"Hello world", none⟩⟩

/-- Concrete google adapter whose translate fails. -/
def cGoogle : TranslatorM := ⟨"google", fun _ _ _ => .error "not configured"⟩

/-- Concrete provider registry. -/
def cProviders : Providers := ⟨cDeepl, cGoogle⟩

/-- Concrete pipeline configuration with the source defaults. -/
def cPipelineConfig : PipelineConfig := ⟨defaultLangDetectConfig, "en", "deepl"⟩

/-- Concrete tenant with no glossary terms. -/
def cTenant : TenantContext := ⟨"t1", "deepl", []⟩

/-- Concrete request with a caller-supplied source language. -/
def cRequest : NormalizeRequest :=
  ⟨"t1", "r1", "custom", "Hola mundo", some "es", some "en"⟩

/-- Concrete cache configuration: enabled, one hour ttl, capacity 10000. -/
def cCacheConfig : CacheConfig := ⟨true, 3600, 10000⟩

/-- Empty cache state with the remote tier reachable. -/
def cCacheRemote : CacheState := ⟨⟨true, false, []⟩, [], 0⟩

/-- Empty cache state with the remote tier unreachable. -/
def cCacheLocal : CacheState := ⟨⟨false, false, []⟩, [], 0⟩

/-- Low-confidence fastText oracle: predicts Spanish at confidence 0.1. -/
def lowConfModel : FastTextModel := fun _ => some [("__label__es", 1/10)]

/-! ## Claim C9: cache key derivation -/

/-- Claim C9 counterexample: the claim says the digest is a hash computed
over the five-tuple including the namespace.  In the source the namespace is
not part of the hashed input: instantiating the digest function with the
identity, the source key differs from the spec-side five-tuple key, and the
digest part of the key is unchanged when only the namespace changes. -/
theorem cache_key_namespace_counterexample :
    generateCacheKey hid "Hola" "es" "en" "deepl" "translation"
      ≠ generateCacheKeySpec hid "Hola" "es" "en" "deepl" "translation"
    ∧ (generateCacheKey hid "Hola" "es" "en" "deepl" "nsA").drop 4
      = (generateCacheKey hid "Hola" "es" "en" "deepl" "nsB").drop 4
    ∧ "nsA" ≠ "nsB" := by
  refine ⟨by decide, by decide, by decide⟩

/-- Claim C9 (amended): the translation cache key is the namespace, a colon
and the first 32 hex characters of the digest of the colon-joined four-tuple
of text, source language, target language and provider; the digest does not
depend on the namespace; language-detection entries live under the fixed
langdetect namespace keyed by a digest of the text alone. -/
theorem cache_key_structure (h : String → String) (text s t p ns1 ns2 : String) :
    generateCacheKey h text s t p ns1
      = ns1 ++ ":" ++ truncate32 (h (hashInput text s t p))
    ∧ generateCacheKey h text s t p ns2
      = ns2 ++ ":" ++ truncate32 (h (hashInput text s t p))
    ∧ langDetectCacheKey h text = "langdetect:" ++ truncate32 (h text) :=
  ⟨rfl, rfl, rfl⟩

/-! ## Claim C7: batch size boundary -/

/-- Elementwise success of the item validator propagates to the list
traversal with the length preserved. -/
theorem parseBatchItems_ok (l : List RawBatchItem)
    (h : ∀ it ∈ l, ∃ b, parseBatchItem it = .ok b) :
    ∃ bs, parseBatchItems l = .ok bs ∧ bs.length = l.length := by
  induction l with
  | nil => exact ⟨[], rfl, rfl⟩
  | cons it rest ih =>
    obtain ⟨b, hb⟩ := h it (List.mem_cons_self it rest)
    obtain ⟨bs, hbs, hlen⟩ := ih (fun x hx => h x (List.mem_cons_of_mem it hx))
    refine ⟨b :: bs, ?_, by simp [hlen]⟩
    simp [parseBatchItems, hb, hbs]

/-- Claim C7: a batch request whose non-items fields validate and whose
items each validate individually is accepted exactly when the item count
lies in the inclusive range 1 to 100. -/
theorem batch_size_boundary (r : RawBatchRequest)
    (htenant : 1 ≤ r.tenant_id.length)
    (htarget : ∀ t, r.target_lang = some t → langCodeOk t = true)
    (hitems : ∀ it ∈ r.items, ∃ b, parseBatchItem it = .ok b) :
    batchRequestAccepted r = true ↔ (1 ≤ r.items.length ∧ r.items.length ≤ 100) := by
  obtain ⟨bs, hbs, hlen⟩ := parseBatchItems_ok r.items hitems
  obtain ⟨t, htgt⟩ : ∃ t, parseTargetLang r.target_lang = .ok t := by
    cases ht : r.target_lang with
    | none => exact ⟨"en", rfl⟩
    | some u => exact ⟨u, by simp [parseTargetLang, htarget u ht]⟩
  unfold batchRequestAccepted parseBatchRequest
  rw [if_neg (by omega), htgt, hbs]
  dsimp only
  rw [hlen]
  constructor
  · intro hacc
    constructor
    · by_contra h1
      rw [if_pos (by omega)] at hacc
      simp at hacc
    · by_contra h2
      rw [if_neg (by omega), if_pos (by omega)] at hacc
      simp at hacc
  · intro hr
    rw [if_neg (by omega), if_neg (by omega)]

/-- Claim C7 witness: a batch of exactly 100 items is accepted; 101 items
and 0 items are rejected. -/
theorem batch_size_boundary_witness :
    batchRequestAccepted ⟨"t1", none, List.replicate 100 ⟨"r", none, "hello", none⟩⟩ = true
    ∧ batchRequestAccepted ⟨"t1", none, List.replicate 101 ⟨"r", none, "hello", none⟩⟩ = false
    ∧ batchRequestAccepted ⟨"t1", none, List.replicate 0 ⟨"r", none, "hello", none⟩⟩ = false := by
  have hit : ∀ n, ∀ it ∈ List.replicate n (RawBatchItem.mk "r" none "hello" none),
      ∃ b, parseBatchItem it = .ok b := by
    intro n it hmem
    rw [List.eq_of_mem_replicate hmem]
    exact ⟨⟨"r", "custom", "hello", none⟩, rfl⟩
  refine ⟨?_, ?_, ?_⟩
  · exact (batch_size_boundary _ (by decide) (by simp) (hit 100)).mpr (by simp)
  · cases hb : batchRequestAccepted ⟨"t1", none, List.replicate 101 ⟨"r", none, "hello", none⟩⟩ with
    | false => rfl
    | true =>
      have := (batch_size_boundary _ (by decide) (by simp) (hit 101)).mp hb
      simp at this
  · cases hb : batchRequestAccepted ⟨"t1", none, List.replicate 0 ⟨"r", none, "hello", none⟩⟩ with
    | false => rfl
    | true =>
      have := (batch_size_boundary _ (by decide) (by simp) (hit 0)).mp hb
      simp at this

/-! ## Claim C4: circuit breaker state machine -/

/-- Claim C4: for an enabled breaker, a closed-state call that brings the
rolling window to at least volumeThreshold calls with failure percentage at
or above errorThresholdPercentage opens the breaker; while open and before
resetTimeout has elapsed every call is rejected with the provider-naming
TranslationError and the wrapped function is not invoked; once resetTimeout
has elapsed the breaker is observed half-open and one probe call is let
through, closing the breaker on success and reopening it on failure. -/
theorem breaker_state_machine (name : String) (cfg : BreakerConfig) (b : BreakerState)
    (now : ℕ) (underlying : CallOutcome) (henabled : cfg.enabled = true) :
    (b.kind = .closed → cfg.volumeThreshold ≤ b.windowCalls + 1 →
      cfg.errorThresholdPercentage * (b.windowCalls + 1)
        ≤ 100 * (b.windowFailures + underlying.failCount) →
      (breakerFire name cfg b now underlying).2.kind = .opened
      ∧ (breakerFire name cfg b now underlying).1 = .completed underlying)
    ∧ (b.kind = .opened → now < b.openedAt + cfg.resetTimeout →
      breakerFire name cfg b now underlying = (.rejected (unavailableMsg name), b))
    ∧ (b.kind = .opened → b.openedAt + cfg.resetTimeout ≤ now →
      breakerKindAt cfg b now = .halfOpen
      ∧ (breakerFire name cfg b now underlying).1 = .completed underlying
      ∧ (breakerFire name cfg b now .success).2.kind = .closed
      ∧ (breakerFire name cfg b now .failure).2.kind = .opened) := by
  have hne : ¬ cfg.enabled = false := by simp [henabled]
  refine ⟨?_, ?_, ?_⟩
  · intro hk hvol hthr
    unfold breakerFire
    rw [if_neg hne, hk]
    dsimp only
    rw [if_pos (And.intro hvol hthr)]
    exact ⟨rfl, rfl⟩
  · intro hk htime
    unfold breakerFire
    rw [if_neg hne, hk, if_pos htime]
  · intro hk htime
    have hnotlt : ¬ now < b.openedAt + cfg.resetTimeout := by omega
    refine ⟨?_, ?_, ?_, ?_⟩
    · unfold breakerKindAt
      rw [hk, if_pos htime]
    · unfold breakerFire
      rw [if_neg hne, hk, if_neg hnotlt]
      cases underlying <;> rfl
    · unfold breakerFire
      rw [if_neg hne, hk, if_neg hnotlt]
      rfl
    · unfold breakerFire
      rw [if_neg hne, hk, if_neg hnotlt]
      rfl

/-- Claim C4 witness: with the default configuration, a fifth consecutive
failure opens the breaker; a call one second later is rejected with the
deepl-naming TranslationError; a call after the reset timeout is observed
half-open and probes, closing on success and reopening on failure. -/
theorem breaker_state_machine_witness :
    (breakerFire "deepl" defaultBreakerConfig ⟨.closed, 4, 4, 0⟩ 100 .failure).2.kind = .opened
    ∧ breakerFire "deepl" defaultBreakerConfig ⟨.opened, 5, 5, 100⟩ 1100 .success
      = (.rejected (unavailableMsg "deepl"), ⟨.opened, 5, 5, 100⟩)
    ∧ breakerKindAt defaultBreakerConfig ⟨.opened, 5, 5, 100⟩ 40000 = .halfOpen
    ∧ (breakerFire "deepl" defaultBreakerConfig ⟨.opened, 5, 5, 100⟩ 40000 .success).2.kind = .closed
    ∧ (breakerFire "deepl" defaultBreakerConfig ⟨.opened, 5, 5, 100⟩ 40000 .failure).2.kind = .opened := by
  refine ⟨?_, ?_, ?_, ?_, ?_⟩
  · exact ((breaker_state_machine "deepl" defaultBreakerConfig ⟨.closed, 4, 4, 0⟩ 100 .failure
      rfl).1 rfl (by decide) (by decide)).1
  · exact (breaker_state_machine "deepl" defaultBreakerConfig ⟨.opened, 5, 5, 100⟩ 1100 .success
      rfl).2.1 rfl (by decide)
  · exact ((breaker_state_machine "deepl" defaultBreakerConfig ⟨.opened, 5, 5, 100⟩ 40000 .success
      rfl).2.2 rfl (by decide)).1
  · exact ((breaker_state_machine "deepl" defaultBreakerConfig ⟨.opened, 5, 5, 100⟩ 40000 .success
      rfl).2.2 rfl (by decide)).2.2.1
  · exact ((breaker_state_machine "deepl" defaultBreakerConfig ⟨.opened, 5, 5, 100⟩ 40000 .failure
      rfl).2.2 rfl (by decide)).2.2.2

/-! ## Claim C5: cache round-trip -/

/-- Lookup of a just-written key in the Redis store model. -/
theorem redisLookup_setex (store : List (String × String × ℕ)) (now now2 : ℕ) (k v : String)
    (ttl : ℕ) :
    redisLookup (redisSetex store now k v ttl) now2 k
      = if now2 < now + ttl * 1000 then some v else none := by
  induction store with
  | nil => simp [redisSetex, redisLookup]
  | cons e rest ih =>
    obtain ⟨k', v', e'⟩ := e
    by_cases hk : k' = k
    · simp [redisSetex, redisLookup, hk]
    · simp [redisSetex, redisLookup, hk, ih]

/-- Lookup of a just-set key in the JS Map model. -/
theorem assocGet_set {α : Type} (l : List (String × α)) (k : String) (v : α) :
    assocGet (assocSet l k v) k = some v := by
  induction l with
  | nil => simp [assocSet, assocGet]
  | cons e rest ih =>
    obtain ⟨k', v'⟩ := e
    by_cases hk : k' = k
    · simp [assocSet, assocGet, hk]
    · simp [assocSet, assocGet, hk, ih]

/-- Claim C5 counterexample: with the remote tier reachable, caching an
empty translated text and reading it back immediately yields a miss, because
getCachedTranslation treats the empty cached string as falsy and the memory
tier was never written.  The claim as stated promises the stored text back
for every tuple and stored value. -/
theorem cache_roundtrip_empty_counterexample :
    getCachedTranslation hid cCacheConfig
      (setCachedTranslation hid cCacheConfig cCacheRemote 0 "hola" "es" "en" "deepl" "" ⟨none, none⟩)
      0 "hola" "es" "en" "deepl" = none := by decide

/-- Claim C5 (amended): with the cache enabled, a positive ttl and a
nonempty translated text, setCachedTranslation followed immediately by
getCachedTranslation on the same tuple returns the stored text, both when
the remote tier is reachable and when it is unavailable and only the local
in-memory tier is used. -/
theorem cache_roundtrip (h : String → String) (cfg : CacheConfig) (st : CacheState) (now : ℕ)
    (text s t p v : String)
    (henabled : cfg.enabled = true) (httl : 1 ≤ cfg.ttlSeconds) (hv : v ≠ "")
    (hconfig : (st.redis.available = true ∧ st.redis.failing = false)
      ∨ st.redis.available = false) :
    getCachedTranslation h cfg
      (setCachedTranslation h cfg st now text s t p v ⟨none, none⟩) now text s t p = some v := by
  have hne : ¬ cfg.enabled = false := by simp [henabled]
  have hexp : now < now + cfg.ttlSeconds * 1000 := by
    have : 0 < cfg.ttlSeconds * 1000 := by positivity
    omega
  rcases hconfig with ⟨hav, hfail⟩ | hav
  · simp [setCachedTranslation, getCachedTranslation, henabled, hav, hfail,
      redisLookup_setex, hexp, hv]
  · simp [setCachedTranslation, getCachedTranslation, henabled, hav, assocGet_set, hexp]

/-- Claim C5 witness: a concrete round-trip through each configuration. -/
theorem cache_roundtrip_witness :
    getCachedTranslation hid cCacheConfig
      (setCachedTranslation hid cCacheConfig cCacheRemote 0 "hola" "es" "en" "deepl" "hello"
        ⟨none, none⟩) 0 "hola" "es" "en" "deepl" = some "hello"
    ∧ getCachedTranslation hid cCacheConfig
      (setCachedTranslation hid cCacheConfig cCacheLocal 0 "hola" "es" "en" "deepl" "hello"
        ⟨none, none⟩) 0 "hola" "es" "en" "deepl" = some "hello" := by
  constructor
  · exact cache_roundtrip hid cCacheConfig cCacheRemote 0 "hola" "es" "en" "deepl" "hello"
      rfl (by decide) (by decide) (Or.inl ⟨rfl, rfl⟩)
  · exact cache_roundtrip hid cCacheConfig cCacheLocal 0 "hola" "es" "en" "deepl" "hello"
      rfl (by decide) (by decide) (Or.inr rfl)

/-! ## Claim C8: retry with exponential backoff -/

/-- Unfolding of one step of the backoff delay sequence. -/
theorem delays_succ (base attempt n : ℕ) :
    (List.range (n + 1)).map (fun i => base * 2 ^ (attempt + i))
      = base * 2 ^ attempt :: (List.range n).map (fun i => base * 2 ^ (attempt + 1 + i)) := by
  rw [List.range_succ_eq_map]
  simp only [List.map_cons, Nat.add_zero, List.map_map]
  refine congrArg (List.cons _) (List.map_congr_left ?_)
  intro i _
  simp only [Function.comp_apply, pow_add, pow_succ]
  ring

/-- Behaviour of the retry loop from any attempt index when every attempt
fails: the last error is surfaced and one delay is slept after each failed
attempt except the final one. -/
theorem retryAux_allfail {E A : Type} (outcomes : ℕ → Except E A) (N base : ℕ) (errs : ℕ → E)
    (hout : ∀ k, k < N → outcomes k = .error (errs k)) :
    ∀ d attempt last, N - attempt = d → attempt < N →
      retryAux outcomes N base attempt last
        = (.error (some (errs (N - 1))),
            (List.range (N - 1 - attempt)).map (fun i => base * 2 ^ (attempt + i))) := by
  intro d
  induction d with
  | zero => intro attempt last hd hlt; omega
  | succ d ih =>
    intro attempt last hd hlt
    rw [retryAux]
    rw [if_pos hlt, hout attempt hlt]
    dsimp only
    by_cases hfin : attempt < N - 1
    · rw [if_pos hfin]
      rw [ih (attempt + 1) (some (errs attempt)) (by omega) (by omega)]
      have hr : N - 1 - attempt = (N - 1 - (attempt + 1)) + 1 := by omega
      rw [hr, delays_succ]
    · rw [if_neg hfin]
      have ha : attempt = N - 1 := by omega
      rw [ha]
      simp

/-- Behaviour of the retry loop when the first success happens at attempt k:
the success is returned and only the earlier failures slept. -/
theorem retryAux_success {E A : Type} (outcomes : ℕ → Except E A) (N base : ℕ) (k : ℕ)
    (a : A) (hkN : k < N) (hok : outcomes k = .ok a)
    (hfail : ∀ j, j < k → ∃ e, outcomes j = .error e) :
    ∀ d attempt last, k - attempt = d → attempt ≤ k →
      retryAux outcomes N base attempt last
        = (.ok a, (List.range (k - attempt)).map (fun i => base * 2 ^ (attempt + i))) := by
  intro d
  induction d with
  | zero =>
    intro attempt last hd hle
    have ha : attempt = k := by omega
    subst ha
    rw [retryAux, if_pos hkN, hok]
    dsimp only
    simp
  | succ d ih =>
    intro attempt last hd hle
    have hlt : attempt < k := by omega
    obtain ⟨e, he⟩ := hfail attempt hlt
    rw [retryAux, if_pos (by omega), he]
    dsimp only
    rw [if_pos (by omega)]
    rw [ih (attempt + 1) (some e) (by omega) (by omega)]
    have hr : k - attempt = (k - (attempt + 1)) + 1 := by omega
    rw [hr, delays_succ]

/-- Claim C8: retry makes up to N attempts; after each failed non-final
attempt it sleeps base * 2 ^ attempt, doubling per attempt from the base
delay; after the final failed attempt the last error is surfaced with no
further delay; a success at attempt k returns immediately with only the
earlier delays slept; DeepLTranslator.translate runs its network call under
this policy with the defaults of three attempts and 1000 ms base delay. -/
theorem retry_backoff {E A : Type} (outcomes : ℕ → Except E A) (N base : ℕ) (errs : ℕ → E)
    (network : ℕ → Except String TranslationResult) (nerrs : ℕ → String) (hN : 1 ≤ N) :
    ((∀ k, k < N → outcomes k = .error (errs k)) →
      retry outcomes N base
        = (.error (some (errs (N - 1))), (List.range (N - 1)).map (fun i => base * 2 ^ i)))
    ∧ (∀ k a, k < N → outcomes k = .ok a → (∀ j, j < k → ∃ e, outcomes j = .error e) →
      retry outcomes N base = (.ok a, (List.range k).map (fun i => base * 2 ^ i)))
    ∧ ((∀ k, k < 3 → network k = .error (nerrs k)) →
      deeplTranslate true network = (.error ("DeepL error: " ++ nerrs 2), [1000, 2000])) := by
  refine ⟨?_, ?_, ?_⟩
  · intro hfail
    unfold retry
    rw [retryAux_allfail outcomes N base errs hfail (N - 0) 0 none rfl (by omega)]
    simp
  · intro k a hk hok hfail
    unfold retry
    rw [retryAux_success outcomes N base k a hk hok hfail (k - 0) 0 none rfl (by omega)]
    simp
  · intro hfail
    unfold deeplTranslate
    simp only [Bool.true_eq_false, if_false]
    unfold retry
    rw [retryAux_allfail network 3 1000 nerrs hfail (3 - 0) 0 none rfl (by omega)]
    rfl

/-- Claim C8 witness: three failing attempts sleep 1000 ms then 2000 ms and
surface the last error; a first-attempt success sleeps nothing. -/
theorem retry_backoff_witness :
    retry (fun _ => (Except.error "boom" : Except String TranslationResult)) 3 1000
      = (.error (some "boom"), [1000, 2000])
    ∧ deeplTranslate true (fun _ => .error "boom")
      = (.error "DeepL error: boom", [1000, 2000])
    ∧ retry (fun _ => (Except.ok 7 : Except String ℕ)) 3 1000 = (.ok 7, []) := by
  have h1 := retry_backoff (fun _ => (Except.error "boom" : Except String TranslationResult))
    3 1000 (fun _ => "boom") (fun _ => .error "boom") (fun _ => "boom") (by omega)
  have h2 := retry_backoff (fun _ => (Except.ok 7 : Except String ℕ))
    3 1000 (fun _ => "x") (fun _ => .error "x") (fun _ => "x") (by omega)
  refine ⟨?_, ?_, ?_⟩
  · exact (h1.1 (fun k _ => rfl)).trans (by rfl)
  · exact (h1.2.2 (fun k _ => rfl)).trans (by rfl)
  · exact (h2.2.1 0 7 (by omega) rfl (fun j hj => absurd hj (by omega))).trans (by rfl)

/-! ## Pipeline helper lemmas -/

/-- The detection events of source resolution: empty when the caller
supplied a truthy source language, else a single detect event. -/
theorem resolveSource_events (cfg : PipelineConfig) (model : Option FastTextModel)
    (request : NormalizeRequest) :
    (resolveSource cfg model request).2.2 = []
    ∨ (resolveSource cfg model request).2.2 = [Event.detect request.text] := by
  unfold resolveSource
  cases request.source_lang with
  | none => exact Or.inr rfl
  | some s =>
    dsimp only
    by_cases hs : s = ""
    · rw [if_pos hs]; exact Or.inr rfl
    · rw [if_neg hs]; exact Or.inl rfl

/-- Full characterization of the skip branch of normalizeText. -/
theorem normalizeText_skip (cfg : PipelineConfig) (model : Option FastTextModel) (ps : Providers)
    (request : NormalizeRequest) (tenant : TenantContext) (reqId : String)
    (hskip : (resolveSource cfg model request).1 = resolveTarget cfg request
      ∨ (resolveSource cfg model request).1 = "und") :
    normalizeText cfg model ps request tenant reqId
      = (.ok ⟨request.tenant_id, request.record_id, request.type,
          (resolveSource cfg model request).1, resolveTarget cfg request,
          request.text, request.text,
          ⟨(resolveSource cfg model request).2.1, "none", "fastText", countChars request.text,
            (estimateCost (countChars request.text) "none").estimated_usd, reqId⟩⟩,
        (resolveSource cfg model request).2.2
          ++ [Event.usage ⟨tenant.id, reqId, request.record_id, request.type,
              (resolveSource cfg model request).1, resolveTarget cfg request,
              countChars request.text, "none"⟩]) := by
  unfold normalizeText
  dsimp only
  rw [if_pos hskip]

/-- Full characterization of the successful translation branch of
normalizeText. -/
theorem normalizeText_translate_ok (cfg : PipelineConfig) (model : Option FastTextModel)
    (ps : Providers) (request : NormalizeRequest) (tenant : TenantContext) (reqId : String)
    (translator : TranslatorM) (translationResult : TranslationResult)
    (hnoskip : ¬ ((resolveSource cfg model request).1 = resolveTarget cfg request
      ∨ (resolveSource cfg model request).1 = "und"))
    (htrans : getTranslatorForTenant ps tenant.translator_provider cfg.defaultProvider
      = .ok translator)
    (hcall : translator.translate (pipelineText request tenant)
        (resolveSource cfg model request).1 (resolveTarget cfg request) = .ok translationResult) :
    normalizeText cfg model ps request tenant reqId
      = (.ok ⟨request.tenant_id, request.record_id, request.type,
          (match translationResult.detectedSourceLang with
            | some d => if d = "" then (resolveSource cfg model request).1 else d
            | none => (resolveSource cfg model request).1),
          resolveTarget cfg request, request.text,
          (if tenant.glossary_preserve.length > 0 then
            removeGlossaryMarkers translationResult.text
          else translationResult.text),
          ⟨(resolveSource cfg model request).2.1, translator.name, "fastText",
            countChars request.text,
            (estimateCost (countChars request.text) translator.name).estimated_usd, reqId⟩⟩,
        (resolveSource cfg model request).2.2
          ++ [Event.provTranslate translator.name (pipelineText request tenant)
                (resolveSource cfg model request).1 (resolveTarget cfg request),
              Event.usage ⟨tenant.id, reqId, request.record_id, request.type,
                (resolveSource cfg model request).1, resolveTarget cfg request,
                countChars request.text, translator.name⟩]) := by
  unfold normalizeText
  dsimp only
  rw [if_neg hnoskip, htrans]
  dsimp only
  rw [hcall]

/-- Full characterization of the failing translation branch of
normalizeText: the TranslationError propagates after the provider call. -/
theorem normalizeText_translate_err (cfg : PipelineConfig) (model : Option FastTextModel)
    (ps : Providers) (request : NormalizeRequest) (tenant : TenantContext) (reqId : String)
    (translator : TranslatorM) (e : String)
    (hnoskip : ¬ ((resolveSource cfg model request).1 = resolveTarget cfg request
      ∨ (resolveSource cfg model request).1 = "und"))
    (htrans : getTranslatorForTenant ps tenant.translator_provider cfg.defaultProvider
      = .ok translator)
    (hcall : translator.translate (pipelineText request tenant)
        (resolveSource cfg model request).1 (resolveTarget cfg request) = .error e) :
    normalizeText cfg model ps request tenant reqId
      = (.error e,
        (resolveSource cfg model request).2.2
          ++ [Event.provTranslate translator.name (pipelineText request tenant)
                (resolveSource cfg model request).1 (resolveTarget cfg request)]) := by
  unfold normalizeText
  dsimp only
  rw [if_neg hnoskip, htrans]
  dsimp only
  rw [hcall]

/-- Detection collapses to und when the whitespace-normalized input is
shorter than the configured minimum. -/
theorem detectLanguage_short (cfg : LangDetectConfig) (model : Option FastTextModel)
    (text : String) (hshort : (normalizeWhitespace text).length < cfg.minChars) :
    detectLanguage cfg model text = undResult := by
  unfold detectLanguage
  cases h0 : (text = "" || (String.mk (trimL text.data)).length = 0) with
  | true => simp [h0]
  | false =>
    simp only [h0, Bool.false_eq_true, if_false]
    rw [if_pos hshort]

/-! ## Claim C2: skip path semantics -/

/-- Claim C2: when the resolved source language equals the target or is
und, the response echoes the original text, records translator none, the
usage record carries provider none and is tracked, and no provider adapter,
cache or breaker call happens. -/
theorem skip_path_semantics (cfg : PipelineConfig) (model : Option FastTextModel)
    (ps : Providers) (request : NormalizeRequest) (tenant : TenantContext) (reqId : String)
    (hskip : (resolveSource cfg model request).1 = resolveTarget cfg request
      ∨ (resolveSource cfg model request).1 = "und") :
    (normalizeText cfg model ps request tenant reqId).1
      = .ok ⟨request.tenant_id, request.record_id, request.type,
          (resolveSource cfg model request).1, resolveTarget cfg request,
          request.text, request.text,
          ⟨(resolveSource cfg model request).2.1, "none", "fastText", countChars request.text,
            (estimateCost (countChars request.text) "none").estimated_usd, reqId⟩⟩
    ∧ Event.usage ⟨tenant.id, reqId, request.record_id, request.type,
        (resolveSource cfg model request).1, resolveTarget cfg request,
        countChars request.text, "none"⟩ ∈ (normalizeText cfg model ps request tenant reqId).2
    ∧ (normalizeText cfg model ps request tenant reqId).2.any Event.isProvTranslate = false
    ∧ (normalizeText cfg model ps request tenant reqId).2.any Event.isCacheGet = false
    ∧ (normalizeText cfg model ps request tenant reqId).2.any Event.isCacheSet = false
    ∧ (normalizeText cfg model ps request tenant reqId).2.any Event.isBreakerCall = false := by
  have h := normalizeText_skip cfg model ps request tenant reqId hskip
  rw [h]
  rcases resolveSource_events cfg model request with hev | hev <;>
    simp [hev, Event.isProvTranslate, Event.isCacheGet, Event.isCacheSet, Event.isBreakerCall]

/-- Concrete skip request: caller-supplied source equal to the target. -/
def cRequestSkip : NormalizeRequest := ⟨"t1", "r1", "custom", "Hello", some "en", some "en"⟩

/-- Claim C2 witness: a same-language request echoes its text with provider
none and an empty effect trace apart from the usage record. -/
theorem skip_path_semantics_witness :
    ((normalizeText cPipelineConfig none cProviders cRequestSkip cTenant "req_1").1.map
        (fun r => (r.text_original, r.text_normalized, r.meta.translator, r.source_lang,
          r.target_lang)))
      = .ok ("Hello", "Hello", "none", "en", "en")
    ∧ Event.usage ⟨"t1", "req_1", "r1", "custom", "en", "en", 5, "none"⟩
        ∈ (normalizeText cPipelineConfig none cProviders cRequestSkip cTenant "req_1").2
    ∧ (normalizeText cPipelineConfig none cProviders cRequestSkip cTenant "req_1").2.any
        Event.isProvTranslate = false
    ∧ (normalizeText cPipelineConfig none cProviders cRequestSkip cTenant "req_1").2.any
        Event.isCacheGet = false := by
  have h := skip_path_semantics cPipelineConfig none cProviders cRequestSkip cTenant "req_1"
    (Or.inl rfl)
  refine ⟨by rw [h.1]; rfl, ?_, h.2.2.1, h.2.2.2.1⟩
  have hu : (⟨"t1", "req_1", "r1", "custom", "en", "en", 5, "none"⟩ : UsageRecord)
      = ⟨cTenant.id, "req_1", cRequestSkip.record_id, cRequestSkip.type,
        (resolveSource cPipelineConfig none cRequestSkip).1,
        resolveTarget cPipelineConfig cRequestSkip, countChars cRequestSkip.text, "none"⟩ := by
    decide
  rw [hu]
  exact h.2.1

/-! ## Claim C10: provider-detected source language override -/

/-- Claim C10: on the translation path, a truthy provider-detected source
language overrides the pipeline-resolved one in the response; absent it the
response reports the resolved language; the usage record always carries the
pipeline-resolved source language. -/
theorem detected_source_override (cfg : PipelineConfig) (model : Option FastTextModel)
    (ps : Providers) (request : NormalizeRequest) (tenant : TenantContext) (reqId : String)
    (translator : TranslatorM) (translationResult : TranslationResult)
    (hnoskip : ¬ ((resolveSource cfg model request).1 = resolveTarget cfg request
      ∨ (resolveSource cfg model request).1 = "und"))
    (htrans : getTranslatorForTenant ps tenant.translator_provider cfg.defaultProvider
      = .ok translator)
    (hcall : translator.translate (pipelineText request tenant)
        (resolveSource cfg model request).1 (resolveTarget cfg request) = .ok translationResult) :
    (∀ d, translationResult.detectedSourceLang = some d → d ≠ "" →
      ∃ resp, (normalizeText cfg model ps request tenant reqId).1 = .ok resp
        ∧ resp.source_lang = d)
    ∧ (translationResult.detectedSourceLang = none →
      ∃ resp, (normalizeText cfg model ps request tenant reqId).1 = .ok resp
        ∧ resp.source_lang = (resolveSource cfg model request).1)
    ∧ Event.usage ⟨tenant.id, reqId, request.record_id, request.type,
        (resolveSource cfg model request).1, resolveTarget cfg request,
        countChars request.text, translator.name⟩
      ∈ (normalizeText cfg model ps request tenant reqId).2 := by
  have h := normalizeText_translate_ok cfg model ps request tenant reqId translator
    translationResult hnoskip htrans hcall
  have h1 := congrArg Prod.fst h
  have h2 := congrArg Prod.snd h
  refine ⟨?_, ?_, ?_⟩
  · intro d hd hdne
    refine ⟨_, h1, ?_⟩
    simp only [hd]
    simp [hdne]
  · intro hd
    refine ⟨_, h1, ?_⟩
    simp only [hd]
  · rw [h2]
    simp

/-- Concrete deepl adapter whose result carries a detected source
language. -/
def cDeeplDet : TranslatorM := ⟨"deepl", fun _ _ _ => .ok ⟨"Hello world", some "fr"⟩⟩

/-- Concrete provider registry with the detecting deepl adapter. -/
def cProvidersDet : Providers := ⟨cDeeplDet, cGoogle⟩

/-- Claim C10 witness: the provider reports fr, the response carries fr,
and the usage record keeps the resolved es. -/
theorem detected_source_override_witness :
    (∃ resp, (normalizeText cPipelineConfig none cProvidersDet cRequest cTenant "req_1").1
        = .ok resp ∧ resp.source_lang = "fr")
    ∧ Event.usage ⟨"t1", "req_1", "r1", "custom", "es", "en", 10, "deepl"⟩
        ∈ (normalizeText cPipelineConfig none cProvidersDet cRequest cTenant "req_1").2 := by
  have h := detected_source_override cPipelineConfig none cProvidersDet cRequest cTenant "req_1"
    cDeeplDet ⟨"Hello world", some "fr"⟩ (by decide) rfl rfl
  refine ⟨h.1 "fr" rfl (by decide), ?_⟩
  have hu : (⟨"t1", "req_1", "r1", "custom", "es", "en", 10, "deepl"⟩ : UsageRecord)
      = ⟨cTenant.id, "req_1", cRequest.record_id, cRequest.type,
        (resolveSource cPipelineConfig none cRequest).1, resolveTarget cPipelineConfig cRequest,
        countChars cRequest.text, cDeeplDet.name⟩ := by decide
  rw [hu]
  exact h.2.2

/-! ## Claim C1: data flow of the translation path -/

/-- Claim C1 counterexample: a concrete non-skipped request whose provider
call succeeds produces a trace with the provider invocation but with no
cache lookup, no cache store and no breaker-guarded call, refuting the
claimed cache-then-breaker-then-provider-then-cache data flow. -/
theorem pipeline_no_cache_counterexample :
    ¬ ((resolveSource cPipelineConfig none cRequest).1 = resolveTarget cPipelineConfig cRequest
      ∨ (resolveSource cPipelineConfig none cRequest).1 = "und")
    ∧ (normalizeText cPipelineConfig none cProviders cRequest cTenant "req_1").2.any
        Event.isProvTranslate = true
    ∧ (normalizeText cPipelineConfig none cProviders cRequest cTenant "req_1").2.any
        Event.isCacheGet = false
    ∧ (normalizeText cPipelineConfig none cProviders cRequest cTenant "req_1").2.any
        Event.isCacheSet = false
    ∧ (normalizeText cPipelineConfig none cProviders cRequest cTenant "req_1").2.any
        Event.isBreakerCall = false := by decide

/-- Claim C1 (amended): a non-skipped request goes straight to the selected
provider adapter: the trace is exactly the detection events, the provider
translate call and the usage record, with no cache lookup, no cache store
and no circuit-breaker mediation; on provider success the response is
returned, and on provider error the TranslationError propagates to the
caller. -/
theorem pipeline_direct_provider (cfg : PipelineConfig) (model : Option FastTextModel)
    (ps : Providers) (request : NormalizeRequest) (tenant : TenantContext) (reqId : String)
    (translator : TranslatorM)
    (hnoskip : ¬ ((resolveSource cfg model request).1 = resolveTarget cfg request
      ∨ (resolveSource cfg model request).1 = "und"))
    (htrans : getTranslatorForTenant ps tenant.translator_provider cfg.defaultProvider
      = .ok translator) :
    (∀ translationResult, translator.translate (pipelineText request tenant)
        (resolveSource cfg model request).1 (resolveTarget cfg request) = .ok translationResult →
      (normalizeText cfg model ps request tenant reqId).2
        = (resolveSource cfg model request).2.2
          ++ [Event.provTranslate translator.name (pipelineText request tenant)
                (resolveSource cfg model request).1 (resolveTarget cfg request),
              Event.usage ⟨tenant.id, reqId, request.record_id, request.type,
                (resolveSource cfg model request).1, resolveTarget cfg request,
                countChars request.text, translator.name⟩]
      ∧ (normalizeText cfg model ps request tenant reqId).2.any Event.isCacheGet = false
      ∧ (normalizeText cfg model ps request tenant reqId).2.any Event.isCacheSet = false
      ∧ (normalizeText cfg model ps request tenant reqId).2.any Event.isBreakerCall = false
      ∧ ∃ resp, (normalizeText cfg model ps request tenant reqId).1 = .ok resp)
    ∧ (∀ e, translator.translate (pipelineText request tenant)
        (resolveSource cfg model request).1 (resolveTarget cfg request) = .error e →
      (normalizeText cfg model ps request tenant reqId).1 = .error e
      ∧ (normalizeText cfg model ps request tenant reqId).2.any Event.isCacheGet = false
      ∧ (normalizeText cfg model ps request tenant reqId).2.any Event.isCacheSet = false
      ∧ (normalizeText cfg model ps request tenant reqId).2.any Event.isBreakerCall = false) := by
  constructor
  · intro translationResult hcall
    have h := normalizeText_translate_ok cfg model ps request tenant reqId translator
      translationResult hnoskip htrans hcall
    have h1 := congrArg Prod.fst h
    have h2 := congrArg Prod.snd h
    refine ⟨h2, ?_, ?_, ?_, ⟨_, h1⟩⟩ <;> rw [h2] <;>
      rcases resolveSource_events cfg model request with hev | hev <;>
      simp [hev, Event.isCacheGet, Event.isCacheSet, Event.isBreakerCall]
  · intro e hcall
    have h := normalizeText_translate_err cfg model ps request tenant reqId translator
      e hnoskip htrans hcall
    have h1 := congrArg Prod.fst h
    have h2 := congrArg Prod.snd h
    refine ⟨h1, ?_, ?_, ?_⟩ <;> rw [h2] <;>
      rcases resolveSource_events cfg model request with hev | hev <;>
      simp [hev, Event.isCacheGet, Event.isCacheSet, Event.isBreakerCall]

/-- Claim C1 witness: the amended data flow at a concrete request, for both
a successful and a failing provider call. -/
theorem pipeline_direct_provider_witness :
    (normalizeText cPipelineConfig none cProviders cRequest cTenant "req_1").2
      = [Event.provTranslate "deepl" "Hola mundo" "es" "en",
          Event.usage ⟨"t1", "req_1", "r1", "custom", "es", "en", 10, "deepl"⟩]
    ∧ (normalizeText cPipelineConfig none cProviders cRequest cTenant "req_1").2.any
        Event.isCacheGet = false
    ∧ (normalizeText cPipelineConfig none ⟨⟨"deepl", fun _ _ _ => .error "DeepL error: 503"⟩,
        cGoogle⟩ cRequest cTenant "req_1").1 = .error "DeepL error: 503" := by
  have h := pipeline_direct_provider cPipelineConfig none cProviders cRequest cTenant "req_1"
    cDeepl (by decide) rfl
  have hok := h.1 ⟨"Hello world", none⟩ rfl
  have herr := (pipeline_direct_provider cPipelineConfig none
    ⟨⟨"deepl", fun _ _ _ => .error "DeepL error: 503"⟩, cGoogle⟩ cRequest cTenant "req_1"
    ⟨"deepl", fun _ _ _ => .error "DeepL error: 503"⟩ (by decide) rfl).2
    "DeepL error: 503" rfl
  exact ⟨hok.1.trans (by decide), hok.2.1, herr.1⟩

/-! ## Claim C3: detection gating -/

/-- Concrete request with no caller-supplied source and a short text. -/
def cRequestShort : NormalizeRequest := ⟨"t1", "r1", "custom", "Hola", none, some "en"⟩

/-- Concrete request with no caller-supplied source and a long text. -/
def cRequestNoSource : NormalizeRequest :=
  ⟨"t1", "r1", "custom", "Hola mundo amigos", none, some "en"⟩

/-- Detection outcome when the model is present and yields a top
prediction: the label is stripped and the reliability flag compares the
confidence against the threshold; the predicted language is returned even
below the threshold. -/
theorem detectLanguage_topPrediction (cfg : LangDetectConfig) (model : Option FastTextModel)
    (text : String) (predict : FastTextModel) (label : String) (value : ℚ)
    (restp : List (String × ℚ))
    (hmodel : model = some predict)
    (h0 : (text = "" || (String.mk (trimL text.data)).length = 0) = false)
    (hlen : ¬ (normalizeWhitespace text).length < cfg.minChars)
    (hsym : isMostlySymbolsOrNumbers (normalizeWhitespace text) = false)
    (hpred : predict ((normalizeWhitespace text).take 1000) = some ((label, value) :: restp)) :
    detectLanguage cfg model text
      = ⟨stripLabel label, value, decide (cfg.confidenceThreshold ≤ value)⟩ := by
  unfold detectLanguage
  rw [h0]
  simp only [Bool.false_eq_true, if_false]
  rw [if_neg hlen]
  simp only [hsym, Bool.false_eq_true, if_false]
  rw [hmodel]
  dsimp only
  rw [hpred]

unseal collapseWs replaceFirstDrop in
/-- Claim C3 counterexample: with the default threshold of 0.7, a long
input whose top prediction has confidence 0.1 does not collapse to und: the
detector returns the predicted language (merely flagged unreliable), the
pipeline resolves the source to it, and translation is attempted. -/
theorem low_confidence_counterexample :
    detectLanguage defaultLangDetectConfig (some lowConfModel) "Hola mundo amigos"
      = ⟨"es", 1/10, false⟩
    ∧ (1/10 : ℚ) < defaultLangDetectConfig.confidenceThreshold
    ∧ (resolveSource cPipelineConfig (some lowConfModel) cRequestNoSource).1 = "es"
    ∧ (normalizeText cPipelineConfig (some lowConfModel) cProviders cRequestNoSource cTenant
        "req_1").2.any Event.isProvTranslate = true := by
  refine ⟨?_, by norm_num [defaultLangDetectConfig], by decide, by decide⟩
  rw [detectLanguage_topPrediction defaultLangDetectConfig (some lowConfModel)
    "Hola mundo amigos" lowConfModel "__label__es" (1/10) [] rfl (by decide) (by decide)
    (by decide) rfl]
  have hd : decide (defaultLangDetectConfig.confidenceThreshold ≤ (1:ℚ)/10) = false :=
    decide_eq_false (by norm_num [defaultLangDetectConfig])
  rw [hd]
  simp only [LanguageDetectionResult.mk.injEq]
  exact ⟨by decide, trivial, trivial⟩

/-- Claim C3 (amended): a request without a caller-supplied source language
whose whitespace-normalized text is shorter than the configured minimum
resolves to und with confidence 0 and no translation is attempted (the text
is echoed back); the resolved source is always the detector output; and a
prediction whose confidence is below the threshold is returned as the
predicted language with its confidence and isReliable false rather than
collapsing to und. -/
theorem detection_gating (cfg : PipelineConfig) (model : Option FastTextModel) (ps : Providers)
    (request : NormalizeRequest) (tenant : TenantContext) (reqId : String)
    (predict : FastTextModel) (label : String) (value : ℚ) (restp : List (String × ℚ)) :
    ((normalizeWhitespace request.text).length < cfg.langDetect.minChars →
      detectLanguage cfg.langDetect model request.text = undResult)
    ∧ (request.source_lang = none →
        (normalizeWhitespace request.text).length < cfg.langDetect.minChars →
      (normalizeText cfg model ps request tenant reqId).2.any Event.isProvTranslate = false
      ∧ ∃ resp, (normalizeText cfg model ps request tenant reqId).1 = .ok resp
          ∧ resp.text_normalized = request.text ∧ resp.source_lang = "und"
          ∧ resp.meta.detected_confidence = some 0)
    ∧ (request.source_lang = none →
      (resolveSource cfg model request).1
        = (detectLanguage cfg.langDetect model request.text).lang)
    ∧ (model = some predict →
        (request.text = "" || (String.mk (trimL request.text.data)).length = 0) = false →
        ¬ (normalizeWhitespace request.text).length < cfg.langDetect.minChars →
        isMostlySymbolsOrNumbers (normalizeWhitespace request.text) = false →
        predict ((normalizeWhitespace request.text).take 1000) = some ((label, value) :: restp) →
        value < cfg.langDetect.confidenceThreshold →
      detectLanguage cfg.langDetect model request.text = ⟨stripLabel label, value, false⟩) := by
  refine ⟨?_, ?_, ?_, ?_⟩
  · exact detectLanguage_short cfg.langDetect model request.text
  · intro hsrc hshort
    have hdet := detectLanguage_short cfg.langDetect model request.text hshort
    have hres : resolveSource cfg model request
        = ("und", some 0, [Event.detect request.text]) := by
      unfold resolveSource
      rw [hsrc]
      dsimp only
      rw [hdet]
      rfl
    have hskip : (resolveSource cfg model request).1 = resolveTarget cfg request
        ∨ (resolveSource cfg model request).1 = "und" := Or.inr (by rw [hres])
    have h := normalizeText_skip cfg model ps request tenant reqId hskip
    have h1 := congrArg Prod.fst h
    have h2 := congrArg Prod.snd h
    constructor
    · rw [h2, hres]
      simp [Event.isProvTranslate]
    · refine ⟨_, h1, rfl, by rw [hres], by rw [hres]⟩
  · intro hsrc
    unfold resolveSource
    rw [hsrc]
  · intro hmodel h0 hlen hsym hpred hconf
    rw [detectLanguage_topPrediction cfg.langDetect model request.text predict label value
      restp hmodel h0 hlen hsym hpred]
    simp [decide_eq_false (not_le.mpr hconf)]

unseal collapseWs replaceFirstDrop in
/-- Claim C3 witness: a four-character input resolves to und and skips
translation; the low-confidence detection keeps the predicted language. -/
theorem detection_gating_witness :
    detectLanguage defaultLangDetectConfig none "Hola" = undResult
    ∧ (normalizeText cPipelineConfig none cProviders cRequestShort cTenant "req_1").2.any
        Event.isProvTranslate = false
    ∧ detectLanguage defaultLangDetectConfig (some lowConfModel) "Hola mundo amigos"
      = ⟨"es", 1/10, false⟩ := by
  have h := detection_gating cPipelineConfig none cProviders cRequestShort cTenant "req_1"
    lowConfModel "x" 0 []
  have h2 := detection_gating cPipelineConfig (some lowConfModel) cProviders cRequestNoSource
    cTenant "req_1" lowConfModel "__label__es" (1/10) []
  have hc : (1 : ℚ)/10 < cPipelineConfig.langDetect.confidenceThreshold := by
    norm_num [cPipelineConfig, defaultLangDetectConfig]
  have hdet2 := h2.2.2.2 rfl (by decide) (by decide) (by decide) rfl hc
  refine ⟨h.1 (by decide), (h.2.1 rfl (by decide)).1, hdet2.trans ?_⟩
  simp only [LanguageDetectionResult.mk.injEq]
  exact ⟨by decide, trivial, trivial⟩

/-! ## Claim C6: glossary round-trip -/

/-- Substring test at the list level. -/
def containsSub (pat : List Char) : List Char → Bool
  | [] => pat.isEmpty
  | c :: cs => pat.isPrefixOf (c :: cs) || containsSub pat cs

/-- Terms for which a later glossary pass cannot match inside or across an
inserted marker: nonempty, free of the angle brackets, and not the word
keep in any letter case. -/
def GoodTerm (t : List Char) : Prop :=
  t ≠ [] ∧ '<' ∉ t ∧ '>' ∉ t ∧ t.map foldCase ≠ ['k', 'e', 'e', 'p'].map foldCase

/-- Well-marked strings: a token decomposition into opening markers,
closing markers and plain characters other than the angle bracket that
starts a marker, together with the plain-character content. -/
inductive Marked : List Char → List Char → Prop
  | nil : Marked [] []
  | tokOpen {s p : List Char} : Marked s p → Marked (openTok ++ s) p
  | tokClose {s p : List Char} : Marked s p → Marked (closeTok ++ s) p
  | plain {c : Char} {s p : List Char} : c ≠ '<' → Marked s p → Marked (c :: s) (c :: p)

/-- The marker-removal pass of a well-marked string is its plain content. -/
theorem remove_marked {s p : List Char} (h : Marked s p) : removeGlossaryMarkersL s = p := by
  induction h with
  | nil => simp [removeGlossaryMarkersL]
  | tokOpen _ ih =>
    rename_i s' p' _
    show removeGlossaryMarkersL ('<' :: 'k' :: 'e' :: 'e' :: 'p' :: '>' :: s') = p'
    rw [removeGlossaryMarkersL]
    simp only [List.isPrefixOf, openTok, closeTok]
    simp [ih]
  | tokClose _ ih =>
    rename_i s' p' _
    show removeGlossaryMarkersL ('<' :: '/' :: 'k' :: 'e' :: 'e' :: 'p' :: '>' :: s') = p'
    rw [removeGlossaryMarkersL]
    simp only [List.isPrefixOf, openTok, closeTok]
    simp [ih]
  | plain hc _ ih =>
    rename_i c s' p' _
    have hb : ('<' == c) = false := beq_eq_false_iff_ne.mpr (fun h => hc h.symm)
    rw [removeGlossaryMarkersL]
    simp only [List.isPrefixOf, openTok, closeTok, hb, Bool.false_and, Bool.false_eq_true,
      if_false]
    simp [ih]

/-- A string without the marker-opening bracket is trivially well-marked
over itself. -/
theorem marked_of_no_lt {l : List Char} (h : '<' ∉ l) : Marked l l := by
  induction l with
  | nil => exact .nil
  | cons c cs ih =>
    exact .plain (fun hc => h (hc ▸ List.mem_cons_self c cs))
      (ih fun hm => h (List.mem_cons_of_mem c hm))

/-- A successful literal match splits the input and matches the term up to
case folding. -/
theorem matchCI_eq : ∀ {t u m r : List Char}, matchCI t u = some (m, r) →
    u = m ++ r ∧ m.map foldCase = t.map foldCase := by
  intro t
  induction t with
  | nil =>
    intro u m r h
    simp only [matchCI, Option.some.injEq, Prod.mk.injEq] at h
    obtain ⟨h1, h2⟩ := h
    subst h1 h2
    simp
  | cons a ts ih =>
    intro u m r h
    cases u with
    | nil => simp [matchCI] at h
    | cons c cs =>
      simp only [matchCI] at h
      by_cases hc : foldCase a = foldCase c
      · rw [if_pos hc] at h
        rcases hr : matchCI ts cs with _ | ⟨m', r'⟩
        · rw [hr] at h; simp at h
        · rw [hr] at h
          simp only [Option.some.injEq, Prod.mk.injEq] at h
          obtain ⟨hm, hrr⟩ := h
          obtain ⟨he, hmap⟩ := ih hr
          subst hm hrr
          exact ⟨by simp [he], by simp [hmap, hc]⟩
      · rw [if_neg hc] at h; simp at h

/-- Characters whose case-folded code is shared by no other character. -/
theorem foldCase_fixed {x : Char} (hup : ¬ (65 ≤ x.toNat ∧ x.toNat ≤ 90))
    (hlo : ¬ (97 ≤ x.toNat ∧ x.toNat ≤ 122)) :
    ∀ c : Char, foldCase c = foldCase x → c = x := by
  intro c h
  unfold foldCase at h
  rw [if_neg hup] at h
  by_cases hc : 65 ≤ c.toNat ∧ c.toNat ≤ 90
  · rw [if_pos hc] at h
    omega
  · rw [if_neg hc] at h
    exact Char.ext (UInt32.ext h)

/-- Only the opening bracket folds to the opening bracket. -/
theorem foldCase_lt (c : Char) (h : foldCase c = foldCase '<') : c = '<' :=
  foldCase_fixed (by decide) (by decide) c h

/-- Only the closing bracket folds to the closing bracket. -/
theorem foldCase_gt (c : Char) (h : foldCase c = foldCase '>') : c = '>' :=
  foldCase_fixed (by decide) (by decide) c h

/-- A matched occurrence avoids every character that the term avoids,
provided the character is alone in its fold class. -/
theorem matchCI_not_mem (x : Char) (hfold : ∀ c : Char, foldCase c = foldCase x → c = x) :
    ∀ {t u m r : List Char}, matchCI t u = some (m, r) → x ∉ t → x ∉ m := by
  intro t
  induction t with
  | nil =>
    intro u m r h _
    simp only [matchCI, Option.some.injEq, Prod.mk.injEq] at h
    obtain ⟨h1, _⟩ := h
    subst h1
    simp
  | cons a ts ih =>
    intro u m r h hx
    cases u with
    | nil => simp [matchCI] at h
    | cons c cs =>
      simp only [matchCI] at h
      by_cases hc : foldCase a = foldCase c
      · rw [if_pos hc] at h
        rcases hr : matchCI ts cs with _ | ⟨m', r'⟩
        · rw [hr] at h; simp at h
        · rw [hr] at h
          simp only [Option.some.injEq, Prod.mk.injEq] at h
          obtain ⟨hm, _⟩ := h
          subst hm
          intro hmem
          rcases List.mem_cons.mp hmem with hcx | hmx
          · subst hcx
            exact hx ((hfold a hc) ▸ List.mem_cons_self a ts)
          · exact ih hr (fun hxt => hx (List.mem_cons_of_mem a hxt)) hmx
      · rw [if_neg hc] at h; simp at h

/-- Scanner equation for the empty input. -/
theorem scanTerm_nil (t : List Char) (prev : Option Char) : scanTerm t prev [] = [] := by
  rw [scanTerm]

/-- Scanner step when no replacement fires at the current position. -/
theorem scanTerm_step_none {t : List Char} {prev : Option Char} {c : Char} {cs : List Char}
    (h : ∀ m rest, matchCI t (c :: cs) = some (m, rest) →
      (!m.isEmpty && wordBoundary prev (some c) && wordBoundary m.getLast? rest.head?) = false) :
    scanTerm t prev (c :: cs) = c :: scanTerm t (some c) cs := by
  rw [scanTerm]
  split
  · rename_i m rest hm
    rw [h m rest hm]
    simp
  · rfl

/-- Scanner step when a replacement fires at the current position. -/
theorem scanTerm_step_match {t : List Char} {prev : Option Char} {c : Char} {cs m rest : List Char}
    (hm : matchCI t (c :: cs) = some (m, rest))
    (hcond : (!m.isEmpty && wordBoundary prev (some c)
      && wordBoundary m.getLast? rest.head?) = true) :
    scanTerm t prev (c :: cs) = openTok ++ m ++ closeTok ++ scanTerm t m.getLast? rest := by
  rw [scanTerm]
  split
  · rename_i m' rest' hm'
    rw [hm] at hm'
    injection hm' with h1
    injection h1 with h2 h3
    subst h2 h3
    rw [hcond]
    simp
  · rename_i hm'
    rw [hm] at hm'
    cases hm'

/-- A successful match of a nonempty term is nonempty. -/
theorem matchCI_ne_nil {t u m r : List Char} (hm : matchCI t u = some (m, r)) (ht : t ≠ []) :
    m ≠ [] := by
  intro h
  subst h
  obtain ⟨_, hmap⟩ := matchCI_eq hm
  exact ht (List.map_eq_nil_iff.mp hmap.symm)

/-- No replacement fires along the letters of an inserted marker: a good
term cannot match at the keep run that follows a marker bracket. -/
theorem scanTerm_keep_run {t : List Char} (hg : GoodTerm t) {prev : Option Char}
    (hprev : isWordOpt prev = false) (s : List Char) :
    scanTerm t prev ('k' :: 'e' :: 'e' :: 'p' :: '>' :: s)
      = 'k' :: 'e' :: 'e' :: 'p' :: '>' :: scanTerm t (some '>') s := by
  obtain ⟨hne, hlt, hgt, hkeep⟩ := hg
  rw [scanTerm_step_none ?hk, scanTerm_step_none ?he1, scanTerm_step_none ?he2,
    scanTerm_step_none ?hp, scanTerm_step_none ?hgtc]
  case he1 =>
    intro m rest _
    simp [wordBoundary, isWordOpt, isWordChar]
  case he2 =>
    intro m rest _
    simp [wordBoundary, isWordOpt, isWordChar]
  case hp =>
    intro m rest _
    simp [wordBoundary, isWordOpt, isWordChar]
  case hgtc =>
    intro m rest hm
    exact False.elim (by
      obtain ⟨happ, _⟩ := matchCI_eq hm
      rcases m with _ | ⟨m1, m'⟩
      · exact (matchCI_ne_nil hm hne) rfl
      · simp only [List.cons_append, List.cons.injEq] at happ
        exact (matchCI_not_mem '>' foldCase_gt hm hgt)
          (happ.1 ▸ List.mem_cons_self m1 m'))
  case hk =>
    intro m rest hm
    by_contra hcond
    rw [Bool.not_eq_false] at hcond
    simp only [Bool.and_eq_true] at hcond
    obtain ⟨⟨hm0, _⟩, hb2⟩ := hcond
    obtain ⟨happ, hmap⟩ := matchCI_eq hm
    rcases m with _ | ⟨m1, _ | ⟨m2, _ | ⟨m3, _ | ⟨m4, _ | ⟨m5, m'⟩⟩⟩⟩⟩
    · simp at hm0
    · simp only [List.cons_append, List.nil_append, List.cons.injEq] at happ
      obtain ⟨h1, hrest⟩ := happ
      subst hrest h1
      simp [wordBoundary, isWordOpt, isWordChar] at hb2
    · simp only [List.cons_append, List.nil_append, List.cons.injEq] at happ
      obtain ⟨h1, h2, hrest⟩ := happ
      subst hrest h2
      simp [wordBoundary, isWordOpt, isWordChar] at hb2
    · simp only [List.cons_append, List.nil_append, List.cons.injEq] at happ
      obtain ⟨h1, h2, h3, hrest⟩ := happ
      subst hrest h3
      simp [wordBoundary, isWordOpt, isWordChar] at hb2
    · simp only [List.cons_append, List.nil_append, List.cons.injEq] at happ
      obtain ⟨h1, h2, h3, h4, hrest⟩ := happ
      subst h1 h2 h3 h4
      exact hkeep (by rw [← hmap])
    · simp only [List.cons_append, List.cons.injEq] at happ
      obtain ⟨h1, h2, h3, h4, h5, _⟩ := happ
      exact (matchCI_not_mem '>' foldCase_gt hm hgt)
        (by rw [← h5]; simp)

/-- A good term never matches starting at a marker bracket, so a whole
opening marker passes through the scanner unchanged. -/
theorem scanTerm_pass_open {t : List Char} (hg : GoodTerm t) (prev : Option Char)
    (s : List Char) :
    scanTerm t prev (openTok ++ s) = openTok ++ scanTerm t (some '>') s := by
  have hne := hg.1
  have hlt := hg.2.1
  show scanTerm t prev ('<' :: 'k' :: 'e' :: 'e' :: 'p' :: '>' :: s) = _
  rw [scanTerm_step_none ?hl]
  rw [scanTerm_keep_run hg (by simp [isWordOpt, isWordChar]) s]
  · rfl
  case hl =>
    intro m rest hm
    exact False.elim (by
      obtain ⟨happ, _⟩ := matchCI_eq hm
      rcases m with _ | ⟨m1, m'⟩
      · exact (matchCI_ne_nil hm hne) rfl
      · simp only [List.cons_append, List.cons.injEq] at happ
        exact (matchCI_not_mem '<' foldCase_lt hm hlt)
          (happ.1 ▸ List.mem_cons_self m1 m'))

/-- A whole closing marker passes through the scanner unchanged. -/
theorem scanTerm_pass_close {t : List Char} (hg : GoodTerm t) (prev : Option Char)
    (s : List Char) :
    scanTerm t prev (closeTok ++ s) = closeTok ++ scanTerm t (some '>') s := by
  have hne := hg.1
  have hlt := hg.2.1
  show scanTerm t prev ('<' :: '/' :: 'k' :: 'e' :: 'e' :: 'p' :: '>' :: s) = _
  rw [scanTerm_step_none ?hl]
  rw [scanTerm_step_none ?hsl]
  rw [scanTerm_keep_run hg (by simp [isWordOpt, isWordChar]) s]
  · rfl
  case hsl =>
    intro m rest _
    simp [wordBoundary, isWordOpt, isWordChar]
  case hl =>
    intro m rest hm
    exact False.elim (by
      obtain ⟨happ, _⟩ := matchCI_eq hm
      rcases m with _ | ⟨m1, m'⟩
      · exact (matchCI_ne_nil hm hne) rfl
      · simp only [List.cons_append, List.cons.injEq] at happ
        exact (matchCI_not_mem '<' foldCase_lt hm hlt)
          (happ.1 ▸ List.mem_cons_self m1 m'))

/-- Inversion of well-markedness at a plain character. -/
theorem marked_cons_inv {a : Char} {l p : List Char} (h : Marked (a :: l) p) (ha : a ≠ '<') :
    ∃ p', p = a :: p' ∧ Marked l p' := by
  generalize hu : a :: l = u at h
  cases h with
  | nil => cases hu
  | tokOpen h' =>
    rw [show openTok ++ _ = '<' :: ('k' :: 'e' :: 'e' :: 'p' :: '>' :: _) from rfl] at hu
    injection hu with h1 _
    exact absurd h1 ha
  | tokClose h' =>
    rw [show closeTok ++ _ = '<' :: ('/' :: 'k' :: 'e' :: 'e' :: 'p' :: '>' :: _) from rfl] at hu
    injection hu with h1 _
    exact absurd h1 ha
  | plain hc h' =>
    injection hu with h1 h2
    subst h1 h2
    exact ⟨_, rfl, h'⟩

/-- Peeling a bracket-free prefix off a well-marked string peels the same
prefix off its plain content. -/
theorem marked_append_plains : ∀ (m : List Char), '<' ∉ m → ∀ {s p : List Char},
    Marked (m ++ s) p → ∃ q, p = m ++ q ∧ Marked s q := by
  intro m
  induction m with
  | nil =>
    intro _ s p h
    exact ⟨p, rfl, h⟩
  | cons a m' ih =>
    intro hlt s p h
    have ha : a ≠ '<' := fun he => hlt (he ▸ List.mem_cons_self a m')
    obtain ⟨p', hp, h'⟩ := marked_cons_inv h ha
    obtain ⟨q, hq, hs⟩ := ih (fun hm => hlt (List.mem_cons_of_mem a hm)) h'
    exact ⟨q, by rw [hp, hq]; rfl, hs⟩

/-- Prepending a bracket-free prefix to a well-marked string prepends it to
the plain content. -/
theorem marked_prepend_plains : ∀ (m : List Char), '<' ∉ m → ∀ {s q : List Char},
    Marked s q → Marked (m ++ s) (m ++ q) := by
  intro m
  induction m with
  | nil => intro _ s q h; exact h
  | cons a m' ih =>
    intro hlt s q h
    exact .plain (fun he => hlt (he ▸ List.mem_cons_self a m'))
      (ih (fun hm => hlt (List.mem_cons_of_mem a hm)) h)

/-- Main simulation: one scanner pass of a good term preserves
well-markedness and the plain content. -/
theorem marked_scanTerm {t : List Char} (hg : GoodTerm t) :
    ∀ n {s p : List Char} (prev : Option Char), s.length ≤ n → Marked s p →
      Marked (scanTerm t prev s) p := by
  intro n
  induction n with
  | zero =>
    intro s p prev hlen h
    have hs : s = [] := List.length_eq_zero.mp (Nat.le_zero.mp hlen)
    subst hs
    rw [scanTerm_nil]
    generalize hu : ([] : List Char) = u at h
    cases h with
    | nil => exact .nil
    | tokOpen h' => cases hu
    | tokClose h' => cases hu
    | plain hc h' => cases hu
  | succ n ih =>
    intro s p prev hlen h
    cases h with
    | nil => rw [scanTerm_nil]; exact .nil
    | tokOpen h' =>
      rw [scanTerm_pass_open hg]
      refine .tokOpen (ih (some '>') ?_ h')
      simp only [List.length_append, openTok, List.length_cons] at hlen ⊢
      simp at hlen
      omega
    | tokClose h' =>
      rw [scanTerm_pass_close hg]
      refine .tokClose (ih (some '>') ?_ h')
      simp only [List.length_append, closeTok, List.length_cons] at hlen ⊢
      simp at hlen
      omega
    | plain hc h' =>
      rename_i c s₀ p₀
      rcases hm : matchCI t (c :: s₀) with _ | ⟨m, rest⟩
      · rw [scanTerm_step_none (fun m r h2 => by rw [hm] at h2; cases h2)]
        refine .plain hc (ih (some c) ?_ h')
        simp at hlen
        omega
      · by_cases hcond : (!m.isEmpty && wordBoundary prev (some c)
          && wordBoundary m.getLast? rest.head?) = true
        · rw [scanTerm_step_match hm hcond]
          obtain ⟨happ, hmap⟩ := matchCI_eq hm
          have hmlt : '<' ∉ m := matchCI_not_mem '<' foldCase_lt hm hg.2.1
          have hm0 : m ≠ [] := matchCI_ne_nil hm hg.1
          have hfull : Marked (m ++ rest) (c :: p₀) := by
            rw [← happ]
            exact .plain hc h'
          obtain ⟨q, hq, hrest⟩ := marked_append_plains m hmlt hfull
          have hrlen : rest.length ≤ n := by
            have hlapp := congrArg List.length happ
            have hmpos : 0 < m.length := List.length_pos.mpr hm0
            simp only [List.length_cons, List.length_append] at hlapp hlen
            omega
          have hscan : Marked (scanTerm t m.getLast? rest) q := ih m.getLast? hrlen hrest
          have h3 : Marked (m ++ (closeTok ++ scanTerm t m.getLast? rest)) (m ++ q) :=
            marked_prepend_plains m hmlt (.tokClose hscan)
          have h4 := Marked.tokOpen h3
          rw [hq]
          simpa [List.append_assoc] using h4
        · rw [scanTerm_step_none ?hno]
          · refine .plain hc (ih (some c) ?_ h')
            simp at hlen
            omega
          case hno =>
            intro m' r' h2
            rw [hm] at h2
            injection h2 with h3
            injection h3 with h4 h5
            subst h4 h5
            cases hcb : (!m.isEmpty && wordBoundary prev (some c)
              && wordBoundary m.getLast? rest.head?) with
            | false => rfl
            | true => exact absurd hcb hcond

/-- All glossary passes of good terms preserve well-markedness. -/
theorem marked_applyGlossaryL {text p : List Char} (h : Marked text p) :
    ∀ {terms : List (List Char)}, (∀ t ∈ terms, GoodTerm t) →
      Marked (applyGlossaryL text terms) p := by
  intro terms
  induction terms generalizing text with
  | nil => intro _; exact h
  | cons t ts ih =>
    intro hterms
    have hg := hterms t (List.mem_cons_self t ts)
    have hstep : Marked (applyGlossaryTerm t text) p := by
      unfold applyGlossaryTerm
      rw [if_neg (by simp [hg.1])]
      exact marked_scanTerm hg text.length none (le_refl _) h
    have : applyGlossaryL text (t :: ts) = applyGlossaryL (applyGlossaryTerm t text) ts := by
      simp [applyGlossaryL]
    rw [this]
    exact ih hstep (fun u hu => hterms u (List.mem_cons_of_mem t hu))

/-- Claim C6 (amended): for every text not containing the marker-opening
bracket and every list of preserve terms that are nonempty, contain neither
angle bracket and are not the word keep in any letter case, removing the
glossary markers after applying the glossary returns the original text,
including when terms occur in the text in different letter cases. -/
theorem glossary_roundtrip (text : String) (terms : List String)
    (htext : '<' ∉ text.data)
    (hterms : ∀ t ∈ terms, t.data ≠ [] ∧ '<' ∉ t.data ∧ '>' ∉ t.data
      ∧ t.data.map foldCase ≠ ['k', 'e', 'e', 'p'].map foldCase) :
    removeGlossaryMarkers (applyGlossary text terms) = text := by
  have hM : Marked (applyGlossaryL text.data (terms.map String.data)) text.data := by
    refine marked_applyGlossaryL (marked_of_no_lt htext) ?_
    intro t ht
    simp only [List.mem_map] at ht
    obtain ⟨u, hu, he⟩ := ht
    subst he
    exact hterms u hu
  show String.mk (removeGlossaryMarkersL (applyGlossaryL text.data (terms.map String.data)))
    = text
  rw [remove_marked hM]

unseal scanTerm removeGlossaryMarkersL in
/-- Claim C6 counterexample: the terms calm and keep contain no marker
syntax, yet the round-trip fails on the text keep calm, because the second
pass for the term keep matches inside the markers inserted by the first
pass. -/
theorem glossary_roundtrip_counterexample :
    containsSub openTok "keep calm".data = false
    ∧ containsSub closeTok "keep calm".data = false
    ∧ containsSub openTok "calm".data = false
    ∧ containsSub closeTok "calm".data = false
    ∧ containsSub openTok "keep".data = false
    ∧ containsSub closeTok "keep".data = false
    ∧ removeGlossaryMarkers (applyGlossary "keep calm" ["calm", "keep"]) ≠ "keep calm" := by
  refine ⟨by decide, by decide, by decide, by decide, by decide, by decide, by decide⟩

/-- Claim C6 witness: a concrete round-trip through two preserve terms with
different letter cases in the text. -/
theorem glossary_roundtrip_witness :
    removeGlossaryMarkers (applyGlossary "We use salesforce and MEDDIC" ["Salesforce", "meddic"])
      = "We use salesforce and MEDDIC" := by
  refine glossary_roundtrip "We use salesforce and MEDDIC" ["Salesforce", "meddic"]
    (by decide) ?_
  intro t ht
  simp only [List.mem_cons, List.not_mem_nil, or_false] at ht
  rcases ht with h | h <;> subst h <;>
    exact ⟨by decide, by decide, by decide, by decide⟩

end TL
